import Mathlib

/-!
Verification development for the live-state synchronization core of the
pulseaudio mixer (source file src/pa-mixer-mk3.py). The Python code is
shallowly embedded: floats become rationals, ordered dicts become
insertion-ordered association lists, time.monotonic becomes a construction
sequence counter, and fallible code returns Option or Except. Compiled
regular expressions, which live in the external re module, are modelled by
their search functions.
-/

set_option linter.unusedVariables false

namespace PaMixer

/-- Pattern clauses of one stream-params config section, as stored by
update_conf_from_file (lines 101-108): either a match clause over a named
property, whose compiled regular expression is modelled by its search
function, or a set effect carrying its raw string value. -/
inductive StreamParam where
  | match_ (k : String) (pat : String → Bool)
  | set (k v : String)

/-- Configuration state, with the class-level defaults of Conf
(src/pa-mixer-mk3.py lines 48-70). Float-valued fields are rationals. -/
structure Conf where
  adjust_step : ℚ := 5
  max_volume : ℚ := 1
  min_volume : ℚ := 1 / 100
  use_device_name : Bool := false
  use_media_name : Bool := false
  placeholder_media_names : List String :=
    ["audio stream", "AudioStream", "Output", "ALSA Playback"]
  name_len_max : Nat := 100
  name_cut_from : String := "left"
  name_show_level : Bool := true
  stream_params : List (String × List StreamParam) := []
  broken_chars_replace : String := "_"
  focus_default : String := "first"
  focus_new_items : Bool := true
  focus_new_items_delay : ℚ := 5
  dump_stream_params : Bool := false

/-- Conf with every field at its class-level default. -/
def conf0 : Conf := {}

/-- Models Conf.parse_bool (lines 72-77); the ValueError raised on an
unrecognized value becomes none. -/
def parse_bool? (val : String) : Option Bool :=
  match val.toLower with
  | "1" | "yes" | "true" | "on" => some true
  | "0" | "no" | "false" | "off" => some false
  | _ => none

/-- Accumulating digit run for parse_float?; none on any non-digit. -/
def decDigitsAux : List Char → Nat → Option Nat
  | [], acc => some acc
  | c :: cs, acc => if c.isDigit then decDigitsAux cs (acc * 10 + (c.toNat - 48)) else none

/-- Nonempty digit run read as a natural number. -/
def decDigits? : List Char → Option Nat
  | [] => none
  | c :: cs => decDigitsAux (c :: cs) 0

/-- Models the Python float builtin on plain decimal literals: optional sign,
integer part, optional fractional part, at least one digit overall. Other
forms give none. Only such literals occur as volume values in stream-params
sections; exponent and infinity forms are not modelled. -/
def parse_float? (v : String) : Option ℚ :=
  let core : List Char → Option ℚ := fun cs =>
    match cs.span (fun c => !(c == '.')) with
    | (intcs, []) => (decDigits? intcs).map (fun n => (n : ℚ))
    | (intcs, _ :: fraccs) =>
      if intcs.isEmpty && fraccs.isEmpty then none
      else
        match (if intcs.isEmpty then some 0 else decDigits? intcs),
            (if fraccs.isEmpty then some 0 else decDigits? fraccs) with
        | some n, some f => some ((n : ℚ) + (f : ℚ) / (10 : ℚ) ^ fraccs.length)
        | _, _ => none
  match v.toList with
  | '-' :: cs => (core cs).map (fun q => -q)
  | '+' :: cs => core cs
  | cs => core cs

/-- Server-side object as the embedded code reads it through pulsectl: the
server index, the property list, the mute flag and the flat volume
(obj.volume.value_flat). -/
structure PulseObj where
  index : Nat
  proplist : List (String × String) := []
  mute : Bool := false
  value_flat : ℚ := 0
deriving DecidableEq, Repr

/-- State of one PAMixerMenuItem (lines 112-124). The menu back-reference is
dropped, name resolution is not modelled (no claim depends on it), and
created_ts is a construction sequence number standing for the monotonic
clock read in __init__. -/
structure PAMixerMenuItem where
  t : String
  uid : String
  obj : PulseObj
  hidden : Bool
  created_ts : Nat
deriving DecidableEq, Repr

/-- PAMixerMenuItem.__init__ (lines 114-118): hidden starts false and the
creation timestamp is taken once at construction. -/
def item_init (obj_t obj_uid : String) (obj : PulseObj) (now : Nat) : PAMixerMenuItem :=
  { t := obj_t, uid := obj_uid, obj := obj, hidden := false, created_ts := now }

/-- Volume getter (lines 207-211): min of 1 and the clamped offset from the
configured floor divided by max_volume. -/
def volume_get (conf : Conf) (value_flat : ℚ) : ℚ :=
  min 1 (max 0 (value_flat - conf.min_volume) / conf.max_volume)

/-- Native value written by the volume setter (lines 212-216): the input is
clamped into the unit interval, scaled by max_volume and offset by
min_volume before being sent to the server. -/
def volume_set_native (conf : Conf) (val : ℚ) : ℚ :=
  min 1 (max 0 val) * conf.max_volume + conf.min_volume

/-- Modelled from the spec: the exception class PAMixerInvalidAction is
raised and caught in src/pa-mixer-mk3.py (lines 225 and 346) but its
declaration is not under src; per spec section 7 an InvalidAction is a
semantically nonsensical command, carried here with its message. -/
structure PAMixerInvalidAction where
  msg : String
deriving DecidableEq, Repr

/-- Message text of the port-setter exception (lines 225-226); the repr
quoting applied by the format string is omitted. -/
def port_invalid_msg (t : String) : String :=
  "Setting ports is only valid for sink-type streams, not " ++ t ++ "-type"

/-- Port setter (lines 222-227): raises PAMixerInvalidAction for any
non-sink item; for sinks the body is an XXX no-op in the source. -/
def port_set (item : PAMixerMenuItem) (_name : String) : Except PAMixerInvalidAction Unit :=
  if item.t ≠ "sink" then Except.error ⟨port_invalid_msg item.t⟩ else Except.ok ()

/-- Lookup in an insertion-ordered association list, the model of Python
dict access. -/
def od_lookup {α : Type} (k : String) : List (String × α) → Option α
  | [] => none
  | p :: rest => if p.1 = k then some p.2 else od_lookup k rest

/-- Ordered-dict assignment: an existing key is overwritten in place, a new
key is appended at the end. -/
def od_set {α : Type} (l : List (String × α)) (k : String) (v : α) : List (String × α) :=
  if (od_lookup k l).isSome then l.map (fun p => if p.1 = k then (k, v) else p)
  else l ++ [(k, v)]

/-- One match clause as evaluated at line 328: the compiled pattern is
searched in the property value, an absent property reading as the empty
string via proplist.get with default. -/
def clause_satisfied (item : PAMixerMenuItem) (k : String) (pat : String → Bool) : Bool :=
  pat ((od_lookup k item.obj.proplist).getD "")

/-- Search semantics of the compiled pattern built for an equals clause at
line 105: caret, the escaped value, dollar. Escaping makes every character
of v literal, the caret pins the match to position zero, and the dollar
accepts either the end of the string or the position before one final
newline; so the search succeeds exactly on v and on v followed by a
newline. -/
def anchoredEscapedSearch (v s : String) : Bool :=
  s == v || s == v ++ "\n"

/-- Key shape of stream-section clauses (line 103): the anchored alternation
of match and equals followed by a bracketed property name, for the
single-line keys configparser produces. -/
def parse_param_key (k : String) : Option (String × String) :=
  let cs := k.toList
  if "match[".toList.isPrefixOf cs && "]".toList.isSuffixOf cs then
    some ("match", String.mk ((cs.drop 6).dropLast))
  else if "equals[".toList.isPrefixOf cs && "]".toList.isSuffixOf cs then
    some ("equals", String.mk ((cs.drop 7).dropLast))
  else none

/-- Clause construction from one config entry (lines 102-107). compileRe
stands for re.compile applied to a raw regex source, which is external to
the repository; equals patterns are wrapped as caret, escaped value, dollar
before compiling, modelled by anchoredEscapedSearch. -/
def build_stream_param (compileRe : String → String → Bool) (k v : String) : StreamParam :=
  match parse_param_key k with
  | some (which, prop) =>
      StreamParam.match_ prop (if which == "equals" then anchoredEscapedSearch v else compileRe v)
  | none => StreamParam.set k v

/-- Observable effects of one apply_stream_params pass: the native-volume
command issued through the wakeup scope, and the log lines of interest. -/
inductive MixEv where
  | matched (sec : String)
  | volume_cmd (val_native : ℚ)
  | log_port_error (sec msg : String)
  | log_unknown (sec k v : String)
deriving DecidableEq, Repr

/-- Clause scan of one config section (lines 325-330): a left fold computing
the conjunction of the match clauses and the ordered dict of set effects. -/
def group_scan (item : PAMixerMenuItem) :
    Bool × List (String × String) → List StreamParam → Bool × List (String × String)
  | acc, [] => acc
  | acc, StreamParam.match_ k pat :: rest =>
      group_scan item (acc.1 && clause_satisfied item k pat, acc.2) rest
  | acc, StreamParam.set k v :: rest =>
      group_scan item (acc.1, od_set acc.2 k v) rest

/-- One set effect (lines 334-351). The volume-dash-min-max-set key check is
the anchored regex of line 335, here an equality test on the three exact
keys. Volume reads go through the getter on the item's cached object;
volume writes become commands; a float or bool parse failure, an uncaught
ValueError in the source, gives none. -/
def apply_set_param (conf : Conf) (item : PAMixerMenuItem) (sec k v : String) :
    Option (PAMixerMenuItem × List MixEv) :=
  if k = "volume-max" then
    (parse_float? v).map fun vol =>
      if volume_get conf item.obj.value_flat > vol then
        (item, [MixEv.volume_cmd (volume_set_native conf vol)])
      else (item, [])
  else if k = "volume-min" then
    (parse_float? v).map fun vol =>
      if volume_get conf item.obj.value_flat < vol then
        (item, [MixEv.volume_cmd (volume_set_native conf vol)])
      else (item, [])
  else if k = "volume-set" then
    (parse_float? v).map fun vol => (item, [MixEv.volume_cmd (volume_set_native conf vol)])
  else if k = "hidden" then
    (parse_bool? v).map fun b => ({ item with hidden := b }, [])
  else if k = "port" then
    match port_set item v with
    | Except.ok _ => some (item, [])
    | Except.error e => some (item, [MixEv.log_port_error sec e.msg])
  else some (item, [MixEv.log_unknown sec k v])

/-- Sequential application of the collected set effects of one section, in
ordered-dict order (lines 334-351). -/
def apply_group_sets (conf : Conf) (item : PAMixerMenuItem) (sec : String) :
    List (String × String) → Option (PAMixerMenuItem × List MixEv)
  | [] => some (item, [])
  | (k, v) :: rest =>
      match apply_set_param conf item sec k v with
      | none => none
      | some (it1, ev1) =>
          match apply_group_sets conf it1 sec rest with
          | none => none
          | some (it2, ev2) => some (it2, ev1 ++ ev2)

/-- One config section applied to one item (lines 324-351): if every match
clause holds, the matched debug line is logged and the set effects run. -/
def apply_group (conf : Conf) (item : PAMixerMenuItem) (sec : String)
    (checks : List StreamParam) : Option (PAMixerMenuItem × List MixEv) :=
  let scan := group_scan item (true, []) checks
  if scan.1 then
    match apply_group_sets conf item sec scan.2 with
    | none => none
    | some (it, evs) => some (it, MixEv.matched sec :: evs)
  else some (item, [])

/-- All config sections applied in order (line 324). -/
def apply_groups (conf : Conf) (item : PAMixerMenuItem) :
    List (String × List StreamParam) → Option (PAMixerMenuItem × List MixEv)
  | [] => some (item, [])
  | (sec, checks) :: rest =>
      match apply_group conf item sec checks with
      | none => none
      | some (it1, ev1) =>
          match apply_groups conf it1 rest with
          | none => none
          | some (it2, ev2) => some (it2, ev1 ++ ev2)

/-- PAMixerMenu.apply_stream_params (lines 323-351) on one item. -/
def apply_stream_params (conf : Conf) (item : PAMixerMenuItem) :
    Option (PAMixerMenuItem × List MixEv) :=
  apply_groups conf item conf.stream_params

/-- Stable id of one server object (line 259): kind, dash, server index. -/
def obj_id (obj_t : String) (obj : PulseObj) : String :=
  obj_t ++ "-" ++ toString obj.index

/-- One full server enumeration, sink_list then sink_input_list as walked at
lines 256-258. -/
structure Snapshot where
  sinks : List PulseObj
  streams : List PulseObj
deriving DecidableEq, Repr

/-- Enumeration order of a snapshot: sinks tagged sink first, then streams
tagged stream. -/
def Snapshot.enum (s : Snapshot) : List (String × PulseObj) :=
  s.sinks.map (fun o => ("sink", o)) ++ s.streams.map (fun o => ("stream", o))

/-- Ids of the enumerated objects, in enumeration order. -/
def Snapshot.enum_ids (s : Snapshot) : List String :=
  s.enum.map (fun e => obj_id e.1 e.2)

/-- Accumulator of the enumeration pass of PAMixerMenu.update
(lines 254-263). -/
structure ScanResult where
  objs : List (String × PAMixerMenuItem)
  obj_new : List String
  obj_gone : List String
  clock : Nat

/-- Step of the enumeration pass for an id already known: the id is crossed
off the obj_gone set (line 263). -/
def ScanResult.found (st : ScanResult) (id : String) : ScanResult :=
  { st with obj_gone := st.obj_gone.erase id }

/-- Step of the enumeration pass for an unknown id: a fresh item is
constructed and appended to the dict, the id recorded in obj_new, and the
construction clock advanced (lines 261-262). -/
def ScanResult.add (st : ScanResult) (e : String × PulseObj) : ScanResult :=
  { objs := st.objs ++ [(obj_id e.1 e.2, item_init e.1 (obj_id e.1 e.2) e.2 st.clock)],
    obj_new := st.obj_new ++ [obj_id e.1 e.2],
    obj_gone := st.obj_gone,
    clock := st.clock + 1 }

/-- Enumeration pass (lines 254-263): walk sinks then streams; an id already
in the dict is crossed off obj_gone, an unknown id constructs an item
appended to the dict and recorded in obj_new. obj_new and obj_gone are
Python sets of strings, modelled as duplicate-free lists, with set.remove as
List.erase; this matches the source whenever the enumerated ids are
distinct (with a duplicated id the source would raise KeyError from
set.remove). -/
def update_scan : ScanResult → List (String × PulseObj) → ScanResult
  | st, [] => st
  | st, e :: rest =>
      if (od_lookup (obj_id e.1 e.2) st.objs).isSome then
        update_scan (st.found (obj_id e.1 e.2)) rest
      else
        update_scan (st.add e) rest

/-- Reordering pass (lines 267-273): sinks and streams are collected in dict
order, and ordered goes false exactly when some sink arrives after a stream
has been collected. -/
def sort_pass :
    List (String × PAMixerMenuItem) → List (String × PAMixerMenuItem) → Bool →
    List (String × PAMixerMenuItem) →
    List (String × PAMixerMenuItem) × List (String × PAMixerMenuItem) × Bool
  | sinks, streams, ordered, [] => (sinks, streams, ordered)
  | sinks, streams, ordered, p :: rest =>
      if p.2.t == "sink" then
        sort_pass (sinks ++ [p]) streams (ordered && streams.isEmpty) rest
      else sort_pass sinks (streams ++ [p]) ordered rest

/-- Matching pass over the rebuilt dict (line 265): each newly added item is
run through apply_stream_params, keeping only its possibly-hidden state
here (the emitted commands go to the server). The source iterates the
obj_new set, whose order is immaterial since each item is adjusted
independently. -/
def apply_new (conf : Conf) (new : List String) :
    List (String × PAMixerMenuItem) → Option (List (String × PAMixerMenuItem))
  | [] => some []
  | p :: rest =>
      match (if p.1 ∈ new then (apply_stream_params conf p.2).map Prod.fst else some p.2),
          apply_new conf new rest with
      | some it, some rest2 => some ((p.1, it) :: rest2)
      | _, _ => none

/-- The scan variable of one update pass (lines 254-263): obj_new and
obj_gone start empty and as the full key set, the clock carries over. -/
def update_scan0 (item_objs : List (String × PAMixerMenuItem)) (clock : Nat)
    (snap : Snapshot) : ScanResult :=
  update_scan ⟨item_objs, [], item_objs.map Prod.fst, clock⟩ snap.enum

/-- Dict after the deletion loop over obj_gone (line 264): iterating the set
and deleting each key leaves exactly the entries whose key is not in it. -/
def update_objs1 (item_objs : List (String × PAMixerMenuItem)) (clock : Nat)
    (snap : Snapshot) : List (String × PAMixerMenuItem) :=
  (update_scan0 item_objs clock snap).objs.filter
    (fun p => decide (p.1 ∉ (update_scan0 item_objs clock snap).obj_gone))

/-- One pass of PAMixerMenu.update (lines 249-279) from a given dict state
and construction clock against one server snapshot: the enumeration diff,
the deletion of vanished ids, the stream-params matching of new ids, the
sinks-first rebuild, and the visible list of non-hidden items. The
update_signal re-run loop and the pulse locking are concurrency scaffolding
outside this state model; an uncaught config parse error gives none. -/
def update (conf : Conf) (item_objs : List (String × PAMixerMenuItem)) (clock : Nat)
    (snap : Snapshot) :
    Option (List (String × PAMixerMenuItem) × List PAMixerMenuItem × Nat) :=
  match apply_new conf (update_scan0 item_objs clock snap).obj_new
      (update_objs1 item_objs clock snap) with
  | none => none
  | some objs2 =>
      let sp := sort_pass [] [] true objs2
      some (if sp.2.2 then objs2 else sp.1 ++ sp.2.1,
        ((if sp.2.2 then objs2 else sp.1 ++ sp.2.1).map Prod.snd).filter (fun it => !it.hidden),
        (update_scan0 item_objs clock snap).clock)

/-- A whole run of refreshes from a given state: each snapshot in turn is
reconciled by one update pass, threading the dict and the construction
clock. -/
def run_refreshes_from (conf : Conf) (item_objs : List (String × PAMixerMenuItem))
    (clock : Nat) :
    List Snapshot → Option (List (String × PAMixerMenuItem) × List PAMixerMenuItem × Nat)
  | [] => some (item_objs, (item_objs.map Prod.snd).filter (fun it => !it.hidden), clock)
  | s :: rest =>
      match update conf item_objs clock s with
      | none => none
      | some (objs2, _, clock2) => run_refreshes_from conf objs2 clock2 rest

/-- Refresh run from the initial menu state of PAMixerMenu.__init__
(line 245): empty ordered dict, empty visible list, clock zero. -/
def run_refreshes (conf : Conf) (snaps : List Snapshot) :
    Option (List (String × PAMixerMenuItem) × List PAMixerMenuItem × Nat) :=
  run_refreshes_from conf [] 0 snaps

/-- PAMixerMenu.item_default (lines 358-361): none on an empty visible list,
else the item picked by the configured focus policy; an unrecognized policy,
a KeyError in the source, is collapsed to none here and excluded by
hypothesis in the theorems using it. -/
def item_default (conf : Conf) (items : List PAMixerMenuItem) : Option PAMixerMenuItem :=
  if items.isEmpty then none
  else if conf.focus_default = "first" then items.head?
  else if conf.focus_default = "last" then items.getLast?
  else none

/-- Loop body of item_after (lines 368-371): once the walked item has been
replaced by the StopIteration sentinel, modelled by the found flag, the next
visited item is returned. -/
def item_after_loop (uid : String) : List PAMixerMenuItem → Bool → Option PAMixerMenuItem
  | [], _ => none
  | it2 :: rest, found => if found then some it2 else item_after_loop uid rest (it2.uid == uid)

/-- PAMixerMenu.item_after (lines 367-372): falls back to item_default when
no argument is given or when the loop falls through. -/
def item_after (conf : Conf) (items : List PAMixerMenuItem) :
    Option PAMixerMenuItem → Option PAMixerMenuItem
  | some item =>
      match item_after_loop item.uid items false with
      | some it2 => some it2
      | none => item_default conf items
  | none => item_default conf items

/-- Loop body of item_before (lines 376-381): on a uid hit the previously
visited item is returned, with the break on a hit at the head, and a
fall-through both mapping to the item_default fallback, returned as none
here. -/
def item_before_loop (uid : String) :
    List PAMixerMenuItem → Option PAMixerMenuItem → Option PAMixerMenuItem
  | [], _ => none
  | it2 :: rest, item_prev =>
      if it2.uid == uid then
        match item_prev with
        | none => none
        | some p => some p
      else item_before_loop uid rest (some it2)

/-- PAMixerMenu.item_before (lines 374-382). -/
def item_before (conf : Conf) (items : List PAMixerMenuItem) :
    Option PAMixerMenuItem → Option PAMixerMenuItem
  | some item =>
      match item_before_loop item.uid items none with
      | some p => some p
      | none => item_default conf items
  | none => item_default conf items

/-- Python int truncation of five seconds over the polling interval: the
number of acquisition attempts the update_wakeup loop makes (line 309). -/
def wakeup_tries (loop_interval : ℚ) : Nat :=
  (((5 : ℚ) / loop_interval).floor).toNat

/-- The bounded polling loop of update_wakeup (lines 309-313): attempt n
stops the listener wait and tries the pulse lock with the loop-interval
timeout; the first successful attempt index is returned, none when the
retry budget runs out (the for-else raise at line 315). -/
def wakeup_poll (acquire : Nat → Bool) : Nat → Nat → Option Nat
  | _, 0 => none
  | n, fuel + 1 => if acquire n then some n else wakeup_poll acquire (n + 1) fuel

/-- Outcome of one update_wakeup scope, read off the with, for-else and
try-finally structure of lines 305-317. -/
structure WakeupOutcome where
  attempts : Nat
  listen_stops : Nat
  acquired : Bool
  stuck : Bool
  body_ran : Bool
  lock_released : Bool
  hold_released : Bool
  error_propagated : Bool
deriving DecidableEq, Repr

/-- One entry into the update_wakeup exclusive-access scope (lines 305-317),
with the lock acquisition outcomes of the environment as an oracle and the
body possibly raising. Each loop iteration first calls event_listen_stop,
then tries the pulse lock with the loop-interval timeout; exhausting the
budget raises the RuntimeError of line 315, the CoordinatorStuck condition
of the spec. The with block releases the hold mutex on every path, and the
try-finally releases the pulse lock whether the body returns or raises. -/
def update_wakeup_run (acquire : Nat → Bool) (body_fails : Bool)
    (loop_interval : ℚ) : WakeupOutcome :=
  let tries := wakeup_tries loop_interval
  match wakeup_poll acquire 0 tries with
  | some n =>
      { attempts := n + 1, listen_stops := n + 1, acquired := true, stuck := false,
        body_ran := true, lock_released := true, hold_released := true,
        error_propagated := body_fails }
  | none =>
      { attempts := tries, listen_stops := tries, acquired := false, stuck := true,
        body_ran := false, lock_released := false, hold_released := true,
        error_propagated := true }

/-! Helper lemmas about the ordered-dict model. -/

theorem od_lookup_append {α : Type} (k : String) (l1 l2 : List (String × α)) :
    od_lookup k (l1 ++ l2) =
      match od_lookup k l1 with
      | some v => some v
      | none => od_lookup k l2 := by
  induction l1 with
  | nil => simp [od_lookup]
  | cons p rest ih =>
      by_cases h : p.1 = k <;> simp [od_lookup, h, ih]

theorem od_lookup_append_left {α : Type} (k : String) (l1 l2 : List (String × α))
    (h : (od_lookup k l1).isSome) : od_lookup k (l1 ++ l2) = od_lookup k l1 := by
  rw [od_lookup_append]
  cases hv : od_lookup k l1 with
  | some v => rfl
  | none => rw [hv] at h; simp at h

theorem od_lookup_append_right {α : Type} (k : String) (l1 l2 : List (String × α))
    (h : od_lookup k l1 = none) : od_lookup k (l1 ++ l2) = od_lookup k l2 := by
  rw [od_lookup_append, h]

theorem od_lookup_isSome_iff {α : Type} (k : String) (l : List (String × α)) :
    (od_lookup k l).isSome ↔ k ∈ l.map Prod.fst := by
  induction l with
  | nil => simp [od_lookup]
  | cons p rest ih =>
      by_cases h : p.1 = k
      · simp [od_lookup, h, List.map_cons, List.mem_cons]
      · have h2 : ¬k = p.1 := fun hh => h hh.symm
        simp [od_lookup, h, h2, List.map_cons, List.mem_cons, ih]

theorem od_lookup_eq_none_iff {α : Type} (k : String) (l : List (String × α)) :
    od_lookup k l = none ↔ k ∉ l.map Prod.fst := by
  rw [← od_lookup_isSome_iff, Option.not_isSome_iff_eq_none]

theorem od_lookup_filter_key {α : Type} (k : String) (q : String → Bool)
    (l : List (String × α)) :
    od_lookup k (l.filter (fun p => q p.1)) =
      if q k then od_lookup k l else none := by
  induction l with
  | nil => simp [od_lookup]
  | cons p rest ih =>
      by_cases hk : p.1 = k
      · subst hk
        by_cases hq : q p.1 <;> simp [od_lookup, hq, ih]
      · by_cases hq : q p.1 <;> simp [od_lookup, hq, hk, ih]

theorem od_lookup_perm {α : Type} {l1 l2 : List (String × α)} (h : List.Perm l1 l2)
    (nd : (l1.map Prod.fst).Nodup) (k : String) : od_lookup k l1 = od_lookup k l2 := by
  induction h with
  | nil => rfl
  | cons p h ih =>
      simp only [List.map_cons, List.nodup_cons] at nd
      by_cases hk : p.1 = k <;> simp [od_lookup, hk, ih nd.2]
  | swap p q l =>
      simp only [List.map_cons, List.nodup_cons, List.mem_cons] at nd
      have hqp : q.1 ≠ p.1 := fun h => nd.1 (Or.inl h)
      by_cases hq : q.1 = k
      · have hp : ¬p.1 = k := fun hh => hqp (hq.trans hh.symm)
        simp [od_lookup, hq, hp]
      · by_cases hp : p.1 = k <;> simp [od_lookup, hp, hq]
  | trans h1 h2 ih1 ih2 =>
      have nd2 := ((h1.map Prod.fst).nodup_iff).mp nd
      rw [ih1 nd, ih2 nd2]

theorem od_lookup_append_none {α : Type} (k : String) (l1 l2 : List (String × α))
    (h : od_lookup k (l1 ++ l2) = none) : od_lookup k l1 = none := by
  rw [od_lookup_append] at h
  cases hv : od_lookup k l1 with
  | some v => rw [hv] at h; simp at h
  | none => rfl

theorem od_lookup_append_self {α : Type} (k : String) (v : α) (l : List (String × α))
    (h : od_lookup k l = none) : od_lookup k (l ++ [(k, v)]) = some v := by
  rw [od_lookup_append, h]
  simp [od_lookup]

theorem od_lookup_append_other {α : Type} (k k2 : String) (v : α) (l : List (String × α))
    (h : k2 ≠ k) : od_lookup k (l ++ [(k2, v)]) = od_lookup k l := by
  rw [od_lookup_append]
  cases hv : od_lookup k l with
  | some w => rfl
  | none => simp [od_lookup, h]

theorem od_lookup_append_singleton_isSome {α : Type} (k k2 : String) (v : α)
    (l : List (String × α)) :
    (od_lookup k (l ++ [(k2, v)])).isSome ↔ (od_lookup k l).isSome ∨ k2 = k := by
  rw [od_lookup_append]
  cases hv : od_lookup k l with
  | some w => simp
  | none => by_cases h : k2 = k <;> simp [od_lookup, h]

/-! Lemmas about the enumeration pass update_scan. -/

@[simp] theorem ScanResult.found_objs (st : ScanResult) (id : String) :
    (st.found id).objs = st.objs := rfl

@[simp] theorem ScanResult.found_new (st : ScanResult) (id : String) :
    (st.found id).obj_new = st.obj_new := rfl

@[simp] theorem ScanResult.found_gone (st : ScanResult) (id : String) :
    (st.found id).obj_gone = st.obj_gone.erase id := rfl

@[simp] theorem ScanResult.found_clock (st : ScanResult) (id : String) :
    (st.found id).clock = st.clock := rfl

@[simp] theorem ScanResult.add_objs (st : ScanResult) (e : String × PulseObj) :
    (st.add e).objs =
      st.objs ++ [(obj_id e.1 e.2, item_init e.1 (obj_id e.1 e.2) e.2 st.clock)] := rfl

@[simp] theorem ScanResult.add_new (st : ScanResult) (e : String × PulseObj) :
    (st.add e).obj_new = st.obj_new ++ [obj_id e.1 e.2] := rfl

@[simp] theorem ScanResult.add_gone (st : ScanResult) (e : String × PulseObj) :
    (st.add e).obj_gone = st.obj_gone := rfl

@[simp] theorem ScanResult.add_clock (st : ScanResult) (e : String × PulseObj) :
    (st.add e).clock = st.clock + 1 := rfl

theorem update_scan_clock_le (enum : List (String × PulseObj)) :
    ∀ st : ScanResult, st.clock ≤ (update_scan st enum).clock := by
  induction enum with
  | nil => intro st; exact le_refl _
  | cons e rest ih =>
      intro st
      simp only [update_scan]
      split
      · exact ih (st.found _)
      · exact le_trans (Nat.le_succ _) (ih (st.add e))

theorem update_scan_lookup_of_isSome (enum : List (String × PulseObj)) :
    ∀ (st : ScanResult) (id : String), (od_lookup id st.objs).isSome →
      od_lookup id (update_scan st enum).objs = od_lookup id st.objs := by
  induction enum with
  | nil => intro st id _; rfl
  | cons e rest ih =>
      intro st id h
      simp only [update_scan]
      split
      · exact ih (st.found _) id h
      · have happ : od_lookup id (st.add e).objs = od_lookup id st.objs :=
          od_lookup_append_left _ _ _ h
        rw [ih (st.add e) id (by rw [happ]; exact h)]
        exact happ

theorem update_scan_isSome_iff (enum : List (String × PulseObj)) :
    ∀ (st : ScanResult) (id : String),
      (od_lookup id (update_scan st enum).objs).isSome ↔
        (od_lookup id st.objs).isSome ∨ id ∈ enum.map (fun e => obj_id e.1 e.2) := by
  induction enum with
  | nil => intro st id; simp [update_scan]
  | cons e rest ih =>
      intro st id
      simp only [update_scan, List.map_cons, List.mem_cons]
      split
      · rename_i hfound
        rw [ih (st.found _)]
        simp only [ScanResult.found_objs]
        constructor
        · rintro (h | h)
          · exact Or.inl h
          · exact Or.inr (Or.inr h)
        · rintro (h | h | h)
          · exact Or.inl h
          · subst h; exact Or.inl hfound
          · exact Or.inr h
      · rw [ih (st.add e)]
        simp only [ScanResult.add_objs]
        rw [od_lookup_append_singleton_isSome]
        constructor
        · rintro ((h | h) | h)
          · exact Or.inl h
          · exact Or.inr (Or.inl h.symm)
          · exact Or.inr (Or.inr h)
        · rintro (h | h | h)
          · exact Or.inl (Or.inl h)
          · exact Or.inl (Or.inr h.symm)
          · exact Or.inr h

theorem update_scan_keys_nodup (enum : List (String × PulseObj)) :
    ∀ st : ScanResult, (st.objs.map Prod.fst).Nodup →
      ((update_scan st enum).objs.map Prod.fst).Nodup := by
  induction enum with
  | nil => intro st h; exact h
  | cons e rest ih =>
      intro st h
      simp only [update_scan]
      split
      · exact ih (st.found _) h
      · rename_i hnot
        refine ih (st.add e) ?_
        have hmem : obj_id e.1 e.2 ∉ st.objs.map Prod.fst := by
          rw [← od_lookup_isSome_iff]
          exact hnot
        simp only [ScanResult.add_objs, List.map_append, List.map_cons, List.map_nil]
        rw [List.nodup_append]
        refine ⟨h, List.nodup_singleton _, ?_⟩
        intro a ha hb
        simp only [List.mem_singleton] at hb
        exact hmem (hb ▸ ha)

theorem update_scan_gone_iff (enum : List (String × PulseObj)) :
    ∀ st : ScanResult, st.obj_gone ⊆ st.objs.map Prod.fst → st.obj_gone.Nodup →
      ∀ id : String,
        (id ∈ (update_scan st enum).obj_gone ↔
          id ∈ st.obj_gone ∧ id ∉ enum.map (fun e => obj_id e.1 e.2)) := by
  induction enum with
  | nil => intro st _ _ id; simp [update_scan]
  | cons e rest ih =>
      intro st hsub hnd id
      simp only [update_scan, List.map_cons, List.mem_cons]
      split
      · rename_i hfound
        rw [ih (st.found _) (fun a ha => hsub (List.erase_subset _ _ ha)) (hnd.erase _) id]
        simp only [ScanResult.found_gone]
        rw [hnd.mem_erase_iff]
        constructor
        · rintro ⟨⟨hne, hg⟩, hnr⟩
          exact ⟨hg, fun hc => hc.elim hne hnr⟩
        · rintro ⟨hg, hc⟩
          exact ⟨⟨fun h => hc (Or.inl h), hg⟩, fun h => hc (Or.inr h)⟩
      · rename_i hnot
        rw [ih (st.add e) ?_ hnd id]
        · simp only [ScanResult.add_gone]
          constructor
          · rintro ⟨hg, hnr⟩
            refine ⟨hg, fun hc => ?_⟩
            rcases hc with hc | hc
            · subst hc
              exact hnot ((od_lookup_isSome_iff _ _).mpr (hsub hg))
            · exact hnr hc
          · rintro ⟨hg, hc⟩
            exact ⟨hg, fun h => hc (Or.inr h)⟩
        · intro a ha
          simp only [ScanResult.add_objs, List.map_append, List.map_cons, List.map_nil]
          exact List.mem_append_left _ (hsub ha)

theorem update_scan_lookup_new (enum : List (String × PulseObj)) :
    ∀ (st : ScanResult) (id : String), od_lookup id st.objs = none →
      id ∈ enum.map (fun e => obj_id e.1 e.2) →
      ∃ it, od_lookup id (update_scan st enum).objs = some it ∧
        st.clock ≤ it.created_ts ∧ it.created_ts < (update_scan st enum).clock ∧
        it.uid = id := by
  induction enum with
  | nil => intro st id _ hmem; simp at hmem
  | cons e rest ih =>
      intro st id hnone hmem
      simp only [List.map_cons, List.mem_cons] at hmem
      simp only [update_scan]
      split
      · rename_i hfound
        rcases hmem with hmem | hmem
        · rw [← hmem] at hfound
          rw [hnone] at hfound
          simp at hfound
        · exact ih (st.found _) id hnone hmem
      · rename_i hnot
        by_cases heq : obj_id e.1 e.2 = id
        · subst heq
          refine ⟨item_init e.1 (obj_id e.1 e.2) e.2 st.clock, ?_, le_refl _, ?_, rfl⟩
          · rw [update_scan_lookup_of_isSome]
            · exact od_lookup_append_self _ _ _ hnone
            · show (od_lookup _ ((st.add e).objs)).isSome
              rw [ScanResult.add_objs, od_lookup_append_self _ _ _ hnone]
              rfl
          · exact lt_of_lt_of_le (Nat.lt_succ_self _) (update_scan_clock_le rest (st.add e))
        · rcases hmem with hmem | hmem
          · exact absurd hmem.symm heq
          · have hnone2 : od_lookup id (st.add e).objs = none := by
              rw [ScanResult.add_objs, od_lookup_append_other _ _ _ _ heq]
              exact hnone
            obtain ⟨it, h1, h2, h3, h4⟩ := ih (st.add e) id hnone2 hmem
            exact ⟨it, h1, le_trans (Nat.le_succ _) h2, h3, h4⟩

theorem update_scan_created_lt (enum : List (String × PulseObj)) :
    ∀ st : ScanResult, (∀ p ∈ st.objs, p.2.created_ts < st.clock) →
      ∀ p ∈ (update_scan st enum).objs, p.2.created_ts < (update_scan st enum).clock := by
  induction enum with
  | nil => intro st h; exact h
  | cons e rest ih =>
      intro st h
      simp only [update_scan]
      split
      · exact ih (st.found _) h
      · refine ih (st.add e) ?_
        intro p hp
        rw [ScanResult.add_objs] at hp
        rcases List.mem_append.mp hp with hp | hp
        · exact lt_trans (h p hp) (Nat.lt_succ_self _)
        · simp only [List.mem_singleton] at hp
          subst hp
          exact Nat.lt_succ_self _

theorem update_scan_new_mem (enum : List (String × PulseObj)) :
    ∀ (st : ScanResult) (id : String), id ∈ (update_scan st enum).obj_new →
      id ∈ st.obj_new ∨ od_lookup id st.objs = none := by
  induction enum with
  | nil => intro st id h; exact Or.inl h
  | cons e rest ih =>
      intro st id h
      simp only [update_scan] at h
      split at h
      · exact ih (st.found _) id h
      · rename_i hnot
        rcases ih (st.add e) id h with h2 | h2
        · rw [ScanResult.add_new] at h2
          rcases List.mem_append.mp h2 with h3 | h3
          · exact Or.inl h3
          · simp only [List.mem_singleton] at h3
            subst h3
            exact Or.inr (Option.not_isSome_iff_eq_none.mp hnot)
        · rw [ScanResult.add_objs] at h2
          exact Or.inr (od_lookup_append_none _ _ _ h2)

theorem update_scan_new_mono (enum : List (String × PulseObj)) :
    ∀ st : ScanResult, st.obj_new ⊆ (update_scan st enum).obj_new := by
  induction enum with
  | nil => intro st; exact fun a ha => ha
  | cons e rest ih =>
      intro st
      simp only [update_scan]
      split
      · exact ih (st.found _)
      · intro a ha
        refine ih (st.add e) ?_
        rw [ScanResult.add_new]
        exact List.mem_append_left _ ha

theorem update_scan_mem_new (enum : List (String × PulseObj)) :
    ∀ (st : ScanResult) (id : String), id ∈ enum.map (fun e => obj_id e.1 e.2) →
      od_lookup id st.objs = none → id ∈ (update_scan st enum).obj_new := by
  induction enum with
  | nil => intro st id hmem _; simp at hmem
  | cons e rest ih =>
      intro st id hmem hnone
      simp only [List.map_cons, List.mem_cons] at hmem
      simp only [update_scan]
      split
      · rename_i hfound
        rcases hmem with hmem | hmem
        · rw [← hmem] at hfound
          rw [hnone] at hfound
          simp at hfound
        · exact ih (st.found _) id hmem hnone
      · rename_i hnot
        rcases hmem with hmem | hmem
        · subst hmem
          refine update_scan_new_mono rest (st.add e) ?_
          rw [ScanResult.add_new]
          exact List.mem_append_right _ (List.mem_singleton.mpr rfl)
        · by_cases heq : obj_id e.1 e.2 = id
          · subst heq
            refine update_scan_new_mono rest (st.add e) ?_
            rw [ScanResult.add_new]
            exact List.mem_append_right _ (List.mem_singleton.mpr rfl)
          · refine ih (st.add e) id hmem ?_
            rw [ScanResult.add_objs, od_lookup_append_other _ _ _ _ heq]
            exact hnone

/-! Creation-timestamp sequences per item kind, and their preservation. -/

/-- Creation timestamps of the dict values selected by a predicate, in dict
order. With the sink or stream kind test this lists the discovery order of
one kind. -/
def vals_ts (p : PAMixerMenuItem → Bool) (l : List (String × PAMixerMenuItem)) : List Nat :=
  ((l.map Prod.snd).filter p).map (fun it => it.created_ts)

theorem vals_ts_append (p : PAMixerMenuItem → Bool)
    (l1 l2 : List (String × PAMixerMenuItem)) :
    vals_ts p (l1 ++ l2) = vals_ts p l1 ++ vals_ts p l2 := by
  simp [vals_ts]

theorem mem_vals_ts {p : PAMixerMenuItem → Bool} {l : List (String × PAMixerMenuItem)}
    {a : Nat} (h : a ∈ vals_ts p l) : ∃ q ∈ l, q.2.created_ts = a := by
  simp only [vals_ts, List.mem_map, List.mem_filter] at h
  obtain ⟨it, ⟨hit, _⟩, hts⟩ := h
  obtain ⟨q, hq, hq2⟩ := hit
  exact ⟨q, hq, by rw [hq2]; exact hts⟩

theorem update_scan_vals_pairwise (p : PAMixerMenuItem → Bool)
    (enum : List (String × PulseObj)) :
    ∀ st : ScanResult, (∀ q ∈ st.objs, q.2.created_ts < st.clock) →
      (vals_ts p st.objs).Pairwise (· < ·) →
      (vals_ts p (update_scan st enum).objs).Pairwise (· < ·) := by
  induction enum with
  | nil => intro st _ hp; exact hp
  | cons e rest ih =>
      intro st hb hp
      simp only [update_scan]
      split
      · exact ih (st.found _) hb hp
      · refine ih (st.add e) ?_ ?_
        · intro q hq
          rw [ScanResult.add_objs] at hq
          rw [ScanResult.add_clock]
          rcases List.mem_append.mp hq with hq | hq
          · exact lt_trans (hb q hq) (Nat.lt_succ_self _)
          · simp only [List.mem_singleton] at hq
            subst hq
            exact Nat.lt_succ_self _
        · rw [ScanResult.add_objs, vals_ts_append]
          rw [List.pairwise_append]
          refine ⟨hp, ?_, ?_⟩
          · cases hpe : p (item_init e.1 (obj_id e.1 e.2) e.2 st.clock) <;>
              simp [vals_ts, hpe]
          · intro a ha b hbv
            obtain ⟨q, hq, hqa⟩ := mem_vals_ts ha
            have hbs : b = st.clock := by
              simp only [vals_ts, List.map_cons, List.map_nil, List.mem_map,
                List.mem_filter, List.mem_singleton] at hbv
              obtain ⟨it, ⟨hit, _⟩, hts⟩ := hbv
              subst hit
              exact hts.symm
            subst hbs
            rw [← hqa]
            exact hb q hq

/-! Field preservation through the stream-params matching pass: matching can
hide an item but never changes its kind, uid, server object or creation
timestamp. -/

theorem apply_set_param_core {conf : Conf} {item : PAMixerMenuItem} {sec k v : String}
    {it : PAMixerMenuItem} {evs : List MixEv}
    (h : apply_set_param conf item sec k v = some (it, evs)) :
    it.t = item.t ∧ it.uid = item.uid ∧ it.obj = item.obj ∧
      it.created_ts = item.created_ts := by
  unfold apply_set_param at h
  split at h
  · cases hpf : parse_float? v <;> rw [hpf] at h
    · simp at h
    · rw [Option.map_some'] at h
      rw [Option.some.injEq] at h
      split at h <;> (injection h with h1 h2; subst h1; exact ⟨rfl, rfl, rfl, rfl⟩)
  · split at h
    · cases hpf : parse_float? v <;> rw [hpf] at h
      · simp at h
      · rw [Option.map_some'] at h
        rw [Option.some.injEq] at h
        split at h <;> (injection h with h1 h2; subst h1; exact ⟨rfl, rfl, rfl, rfl⟩)
    · split at h
      · cases hpf : parse_float? v <;> rw [hpf] at h
        · simp at h
        · rw [Option.map_some'] at h
          rw [Option.some.injEq] at h
          injection h with h1 h2
          subst h1
          exact ⟨rfl, rfl, rfl, rfl⟩
      · split at h
        · cases hpb : parse_bool? v <;> rw [hpb] at h
          · simp at h
          · rw [Option.map_some'] at h
            rw [Option.some.injEq] at h
            injection h with h1 h2
            subst h1
            exact ⟨rfl, rfl, rfl, rfl⟩
        · split at h
          · split at h <;>
              (rw [Option.some.injEq] at h; injection h with h1 h2; subst h1;
                exact ⟨rfl, rfl, rfl, rfl⟩)
          · rw [Option.some.injEq] at h
            injection h with h1 h2
            subst h1
            exact ⟨rfl, rfl, rfl, rfl⟩

theorem apply_group_sets_core :
    ∀ (params : List (String × String)) {conf : Conf} {item : PAMixerMenuItem} {sec : String}
      {it : PAMixerMenuItem} {evs : List MixEv},
      apply_group_sets conf item sec params = some (it, evs) →
      it.t = item.t ∧ it.uid = item.uid ∧ it.obj = item.obj ∧
        it.created_ts = item.created_ts := by
  intro params
  induction params with
  | nil =>
      intro conf item sec it evs h
      simp only [apply_group_sets, Option.some.injEq] at h
      injection h with h1 h2
      subst h1
      exact ⟨rfl, rfl, rfl, rfl⟩
  | cons kv rest ih =>
      intro conf item sec it evs h
      obtain ⟨k, v⟩ := kv
      cases hasp : apply_set_param conf item sec k v with
      | none => simp [apply_group_sets, hasp] at h
      | some pr =>
          obtain ⟨it1, ev1⟩ := pr
          cases hrest : apply_group_sets conf it1 sec rest with
          | none => simp [apply_group_sets, hasp, hrest] at h
          | some pr2 =>
              obtain ⟨it2, ev2⟩ := pr2
              simp only [apply_group_sets, hasp, hrest, Option.some.injEq,
                Prod.mk.injEq] at h
              obtain ⟨h1, _⟩ := h
              subst h1
              obtain ⟨a1, a2, a3, a4⟩ := apply_set_param_core hasp
              obtain ⟨b1, b2, b3, b4⟩ := ih hrest
              exact ⟨b1.trans a1, b2.trans a2, b3.trans a3, b4.trans a4⟩

theorem apply_group_core {conf : Conf} {item : PAMixerMenuItem} {sec : String}
    {checks : List StreamParam} {it : PAMixerMenuItem} {evs : List MixEv}
    (h : apply_group conf item sec checks = some (it, evs)) :
    it.t = item.t ∧ it.uid = item.uid ∧ it.obj = item.obj ∧
      it.created_ts = item.created_ts := by
  simp only [apply_group] at h
  by_cases hm : (group_scan item (true, []) checks).1 = true
  · rw [if_pos hm] at h
    cases hsets : apply_group_sets conf item sec (group_scan item (true, []) checks).2 with
    | none => simp [hsets] at h
    | some pr =>
        obtain ⟨it2, ev2⟩ := pr
        simp only [hsets, Option.some.injEq, Prod.mk.injEq] at h
        obtain ⟨h1, _⟩ := h
        subst h1
        exact apply_group_sets_core _ hsets
  · rw [if_neg hm] at h
    simp only [Option.some.injEq, Prod.mk.injEq] at h
    obtain ⟨h1, _⟩ := h
    subst h1
    exact ⟨rfl, rfl, rfl, rfl⟩

theorem apply_groups_core :
    ∀ (groups : List (String × List StreamParam)) {conf : Conf} {item : PAMixerMenuItem}
      {it : PAMixerMenuItem} {evs : List MixEv},
      apply_groups conf item groups = some (it, evs) →
      it.t = item.t ∧ it.uid = item.uid ∧ it.obj = item.obj ∧
        it.created_ts = item.created_ts := by
  intro groups
  induction groups with
  | nil =>
      intro conf item it evs h
      simp only [apply_groups, Option.some.injEq] at h
      injection h with h1 h2
      subst h1
      exact ⟨rfl, rfl, rfl, rfl⟩
  | cons g rest ih =>
      intro conf item it evs h
      obtain ⟨sec, checks⟩ := g
      cases hgrp : apply_group conf item sec checks with
      | none => simp [apply_groups, hgrp] at h
      | some pr =>
          obtain ⟨it1, ev1⟩ := pr
          cases hrest : apply_groups conf it1 rest with
          | none => simp [apply_groups, hgrp, hrest] at h
          | some pr2 =>
              obtain ⟨it2, ev2⟩ := pr2
              simp only [apply_groups, hgrp, hrest, Option.some.injEq,
                Prod.mk.injEq] at h
              obtain ⟨h1, _⟩ := h
              subst h1
              obtain ⟨a1, a2, a3, a4⟩ := apply_group_core hgrp
              obtain ⟨b1, b2, b3, b4⟩ := ih hrest
              exact ⟨b1.trans a1, b2.trans a2, b3.trans a3, b4.trans a4⟩

theorem apply_stream_params_core {conf : Conf} {item it : PAMixerMenuItem} {evs : List MixEv}
    (h : apply_stream_params conf item = some (it, evs)) :
    it.t = item.t ∧ it.uid = item.uid ∧ it.obj = item.obj ∧
      it.created_ts = item.created_ts :=
  apply_groups_core _ h

/-! Lemmas about the matching pass over the rebuilt dict. -/

theorem vals_ts_cons (p : PAMixerMenuItem → Bool) (q : String × PAMixerMenuItem)
    (l : List (String × PAMixerMenuItem)) :
    vals_ts p (q :: l) = (if p q.2 then [q.2.created_ts] else []) ++ vals_ts p l := by
  cases hq : p q.2 <;> simp [vals_ts, hq]

theorem apply_new_keys {conf : Conf} {new : List String} :
    ∀ (l : List (String × PAMixerMenuItem)) {l2 : List (String × PAMixerMenuItem)},
      apply_new conf new l = some l2 → l2.map Prod.fst = l.map Prod.fst := by
  intro l
  induction l with
  | nil =>
      intro l2 h
      simp only [apply_new, Option.some.injEq] at h
      subst h
      rfl
  | cons p rest ih =>
      intro l2 h
      cases hit : (if p.1 ∈ new then (apply_stream_params conf p.2).map Prod.fst
          else some p.2) with
      | none => simp [apply_new, hit] at h
      | some it =>
          cases hrest : apply_new conf new rest with
          | none => simp [apply_new, hit, hrest] at h
          | some rest2 =>
              simp only [apply_new, hit, hrest, Option.some.injEq] at h
              subst h
              simp [ih hrest]

theorem apply_new_lookup_notin {conf : Conf} {new : List String} (id : String)
    (hnot : id ∉ new) :
    ∀ (l : List (String × PAMixerMenuItem)) {l2 : List (String × PAMixerMenuItem)},
      apply_new conf new l = some l2 → od_lookup id l2 = od_lookup id l := by
  intro l
  induction l with
  | nil =>
      intro l2 h
      simp only [apply_new, Option.some.injEq] at h
      subst h
      rfl
  | cons p rest ih =>
      intro l2 h
      cases hit : (if p.1 ∈ new then (apply_stream_params conf p.2).map Prod.fst
          else some p.2) with
      | none => simp [apply_new, hit] at h
      | some it =>
          cases hrest : apply_new conf new rest with
          | none => simp [apply_new, hit, hrest] at h
          | some rest2 =>
              simp only [apply_new, hit, hrest, Option.some.injEq] at h
              subst h
              by_cases hk : p.1 = id
              · have hmem : ¬p.1 ∈ new := by rw [hk]; exact hnot
                rw [if_neg hmem, Option.some.injEq] at hit
                subst hit
                simp [od_lookup, hk]
              · simp only [od_lookup, hk, if_false]
                exact ih hrest

theorem apply_new_lookup_in {conf : Conf} {new : List String} (id : String)
    (hin : id ∈ new) :
    ∀ (l : List (String × PAMixerMenuItem)) {l2 : List (String × PAMixerMenuItem)}
      {it0 : PAMixerMenuItem},
      apply_new conf new l = some l2 → od_lookup id l = some it0 →
      ∃ it2 evs, apply_stream_params conf it0 = some (it2, evs) ∧
        od_lookup id l2 = some it2 := by
  intro l
  induction l with
  | nil => intro l2 it0 _ hl; simp [od_lookup] at hl
  | cons p rest ih =>
      intro l2 it0 h hl
      cases hit : (if p.1 ∈ new then (apply_stream_params conf p.2).map Prod.fst
          else some p.2) with
      | none => simp [apply_new, hit] at h
      | some it =>
          cases hrest : apply_new conf new rest with
          | none => simp [apply_new, hit, hrest] at h
          | some rest2 =>
              simp only [apply_new, hit, hrest, Option.some.injEq] at h
              subst h
              by_cases hk : p.1 = id
              · have hmem : p.1 ∈ new := by rw [hk]; exact hin
                rw [if_pos hmem] at hit
                cases hasp : apply_stream_params conf p.2 with
                | none => rw [hasp] at hit; simp at hit
                | some pr =>
                    obtain ⟨it2, evs⟩ := pr
                    rw [hasp, Option.map_some', Option.some.injEq] at hit
                    have hit0 : it0 = p.2 := by
                      simp only [od_lookup, hk, if_pos] at hl
                      exact (Option.some.injEq _ _).mp hl.symm ▸ rfl
                    subst hit0
                    refine ⟨it2, evs, hasp, ?_⟩
                    simp [od_lookup, hk, ← hit]
              · simp only [od_lookup, hk, if_false] at hl ⊢
                exact ih hrest hl

theorem apply_new_vals_ts {conf : Conf} {new : List String} (p : PAMixerMenuItem → Bool)
    (hp : ∀ a b : PAMixerMenuItem, a.t = b.t → p a = p b) :
    ∀ (l : List (String × PAMixerMenuItem)) {l2 : List (String × PAMixerMenuItem)},
      apply_new conf new l = some l2 → vals_ts p l2 = vals_ts p l := by
  intro l
  induction l with
  | nil =>
      intro l2 h
      simp only [apply_new, Option.some.injEq] at h
      subst h
      rfl
  | cons q rest ih =>
      intro l2 h
      cases hit : (if q.1 ∈ new then (apply_stream_params conf q.2).map Prod.fst
          else some q.2) with
      | none => simp [apply_new, hit] at h
      | some it =>
          cases hrest : apply_new conf new rest with
          | none => simp [apply_new, hit, hrest] at h
          | some rest2 =>
              simp only [apply_new, hit, hrest, Option.some.injEq] at h
              subst h
              have hco : it.t = q.2.t ∧ it.created_ts = q.2.created_ts := by
                by_cases hmem : q.1 ∈ new
                · rw [if_pos hmem] at hit
                  cases hasp : apply_stream_params conf q.2 with
                  | none => rw [hasp] at hit; simp at hit
                  | some pr =>
                      obtain ⟨it2, evs⟩ := pr
                      rw [hasp, Option.map_some', Option.some.injEq] at hit
                      subst hit
                      obtain ⟨a1, _, _, a4⟩ := apply_stream_params_core hasp
                      exact ⟨a1, a4⟩
                · rw [if_neg hmem, Option.some.injEq] at hit
                  subst hit
                  exact ⟨rfl, rfl⟩
              rw [vals_ts_cons, vals_ts_cons, ih hrest, hp it q.2 hco.1, hco.2]

theorem apply_new_created_bound {conf : Conf} {new : List String} {c : Nat} :
    ∀ (l : List (String × PAMixerMenuItem)) {l2 : List (String × PAMixerMenuItem)},
      apply_new conf new l = some l2 → (∀ q ∈ l, q.2.created_ts < c) →
      ∀ q ∈ l2, q.2.created_ts < c := by
  intro l
  induction l with
  | nil =>
      intro l2 h _
      simp only [apply_new, Option.some.injEq] at h
      subst h
      intro q hq
      simp at hq
  | cons q rest ih =>
      intro l2 h hb
      cases hit : (if q.1 ∈ new then (apply_stream_params conf q.2).map Prod.fst
          else some q.2) with
      | none => simp [apply_new, hit] at h
      | some it =>
          cases hrest : apply_new conf new rest with
          | none => simp [apply_new, hit, hrest] at h
          | some rest2 =>
              simp only [apply_new, hit, hrest, Option.some.injEq] at h
              subst h
              have hco : it.created_ts = q.2.created_ts := by
                by_cases hmem : q.1 ∈ new
                · rw [if_pos hmem] at hit
                  cases hasp : apply_stream_params conf q.2 with
                  | none => rw [hasp] at hit; simp at hit
                  | some pr =>
                      obtain ⟨it2, evs⟩ := pr
                      rw [hasp, Option.map_some', Option.some.injEq] at hit
                      subst hit
                      exact (apply_stream_params_core hasp).2.2.2
                · rw [if_neg hmem, Option.some.injEq] at hit
                  subst hit
                  rfl
              intro r hr
              rcases List.mem_cons.mp hr with hr | hr
              · subst hr
                rw [hco]
                exact hb q (List.mem_cons_self _ _)
              · exact ih hrest (fun a ha => hb a (List.mem_cons_of_mem _ ha)) r hr

/-! Lemmas about the sinks-first reordering pass. -/

theorem sort_pass_fst :
    ∀ (l sinks streams : List (String × PAMixerMenuItem)) (o : Bool),
      (sort_pass sinks streams o l).1 =
        sinks ++ l.filter (fun pr => pr.2.t == "sink") := by
  intro l
  induction l with
  | nil => intro s st o; simp [sort_pass]
  | cons p rest ih =>
      intro s st o
      cases hs : (p.2.t == "sink") <;>
        simp [sort_pass, hs, ih, List.filter_cons]

theorem sort_pass_snd :
    ∀ (l sinks streams : List (String × PAMixerMenuItem)) (o : Bool),
      (sort_pass sinks streams o l).2.1 =
        streams ++ l.filter (fun pr => !(pr.2.t == "sink")) := by
  intro l
  induction l with
  | nil => intro s st o; simp [sort_pass]
  | cons p rest ih =>
      intro s st o
      cases hs : (p.2.t == "sink") <;>
        simp [sort_pass, hs, ih, List.filter_cons]

theorem sort_pass_ordered_false :
    ∀ (l sinks streams : List (String × PAMixerMenuItem)),
      (sort_pass sinks streams false l).2.2 = false := by
  intro l
  induction l with
  | nil => intro s st; rfl
  | cons p rest ih =>
      intro s st
      cases hs : (p.2.t == "sink") <;> simp [sort_pass, hs, ih]

theorem sort_pass_ordered_partition :
    ∀ (l sinks streams : List (String × PAMixerMenuItem)) (o : Bool),
      (sort_pass sinks streams o l).2.2 = true →
      ((streams = [] →
          l = l.filter (fun pr => pr.2.t == "sink") ++
            l.filter (fun pr => !(pr.2.t == "sink"))) ∧
        (streams ≠ [] → l.filter (fun pr => pr.2.t == "sink") = [])) := by
  intro l
  induction l with
  | nil => intro s st o _; exact ⟨fun _ => by simp, fun _ => by simp⟩
  | cons p rest ih =>
      intro s st o h
      cases hs : (p.2.t == "sink") with
      | true =>
          simp only [sort_pass, hs, if_true] at h
          have hst : st = [] := by
            cases hE : st.isEmpty with
            | false =>
                rw [hE, Bool.and_false] at h
                rw [sort_pass_ordered_false] at h
                exact absurd h (by simp)
            | true => exact List.isEmpty_iff.mp hE
          subst hst
          obtain ⟨ih1, _⟩ := ih (s ++ [p]) [] (o && List.isEmpty []) h
          have hrest := ih1 rfl
          refine ⟨fun _ => ?_, fun hne => absurd rfl hne⟩
          simp only [List.filter_cons, hs, Bool.not_true, if_true]
          rw [List.cons_append]
          exact congrArg (List.cons p) hrest
      | false =>
          simp only [sort_pass, hs, if_false] at h
          obtain ⟨_, ih2⟩ := ih s (st ++ [p]) o h
          have hfS : rest.filter (fun pr => pr.2.t == "sink") = [] := ih2 (by simp)
          constructor
          · intro _
            simp only [List.filter_cons, hs, Bool.not_false, if_true]
            have hfN : rest.filter (fun pr => !(pr.2.t == "sink")) = rest := by
              refine List.filter_eq_self.mpr ?_
              intro a ha
              have hna := List.filter_eq_nil_iff.mp hfS a ha
              cases h2 : (a.2.t == "sink")
              · rfl
              · exact absurd h2 hna
            rw [hfS, hfN]
            rfl
          · intro _
            simp only [List.filter_cons, hs]
            exact hfS

theorem sort_pass_partition {l : List (String × PAMixerMenuItem)}
    (h : (sort_pass [] [] true l).2.2 = true) :
    l = l.filter (fun pr => pr.2.t == "sink") ++
      l.filter (fun pr => !(pr.2.t == "sink")) :=
  (sort_pass_ordered_partition l [] [] true h).1 rfl

/-! Inversion of one update pass and the derived facts used by the claims. -/

theorem update_inv {conf : Conf} {objs : List (String × PAMixerMenuItem)} {clock : Nat}
    {snap : Snapshot} {objs3 : List (String × PAMixerMenuItem)}
    {items : List PAMixerMenuItem} {clock2 : Nat}
    (h : update conf objs clock snap = some (objs3, items, clock2)) :
    ∃ objs2,
      apply_new conf (update_scan0 objs clock snap).obj_new
          (update_objs1 objs clock snap) = some objs2 ∧
      objs3 = objs2.filter (fun pr => pr.2.t == "sink") ++
        objs2.filter (fun pr => !(pr.2.t == "sink")) ∧
      items = (objs3.map Prod.snd).filter (fun it => !it.hidden) ∧
      clock2 = (update_scan0 objs clock snap).clock := by
  unfold update at h
  cases han : apply_new conf (update_scan0 objs clock snap).obj_new
      (update_objs1 objs clock snap) with
  | none => rw [han] at h; exact absurd h (by simp)
  | some objs2 =>
      rw [han] at h
      simp only [Option.some.injEq, Prod.mk.injEq] at h
      obtain ⟨h1, h2, h3⟩ := h
      refine ⟨objs2, rfl, ?_, ?_, h3.symm⟩
      · by_cases hord : (sort_pass [] [] true objs2).2.2 = true
        · rw [if_pos hord] at h1
          rw [← h1]
          exact sort_pass_partition hord
        · rw [if_neg hord] at h1
          rw [← h1, sort_pass_fst, sort_pass_snd]
          simp
      · rw [← h2, h1]

theorem od_keys_filter {α : Type} (q : String → Bool) (l : List (String × α)) :
    (l.filter (fun p => q p.1)).map Prod.fst = (l.map Prod.fst).filter q := by
  induction l with
  | nil => rfl
  | cons p rest ih => cases hq : q p.1 <;> simp [List.filter_cons, hq, ih]

theorem map_snd_filter_snd (g : PAMixerMenuItem → Bool)
    (l : List (String × PAMixerMenuItem)) :
    (l.filter (fun pr => g pr.2)).map Prod.snd = (l.map Prod.snd).filter g := by
  induction l with
  | nil => rfl
  | cons p rest ih => cases hq : g p.2 <;> simp [List.filter_cons, hq, ih]

theorem vals_ts_sublist (p : PAMixerMenuItem → Bool)
    {l1 l2 : List (String × PAMixerMenuItem)} (h : List.Sublist l1 l2) :
    List.Sublist (vals_ts p l1) (vals_ts p l2) :=
  ((h.map Prod.snd).filter p).map _

theorem filter_of_partition {α : Type} (p : α → Bool) {l A B : List α}
    (h : l = A ++ B) (hA : ∀ a ∈ A, p a = true) (hB : ∀ b ∈ B, p b = false) :
    l.filter p = A ∧ l.filter (fun x => !(p x)) = B := by
  subst h
  constructor
  · rw [List.filter_append]
    rw [List.filter_eq_self.mpr hA]
    rw [List.filter_eq_nil_iff.mpr (fun b hb => by rw [hB b hb]; exact Bool.false_ne_true)]
    exact List.append_nil _
  · rw [List.filter_append]
    have h1 : A.filter (fun x => !(p x)) = [] := by
      refine List.filter_eq_nil_iff.mpr (fun a ha => ?_)
      rw [hA a ha]
      exact Bool.false_ne_true
    have h2 : B.filter (fun x => !(p x)) = B := by
      refine List.filter_eq_self.mpr (fun b hb => ?_)
      rw [hB b hb]
      rfl
    rw [h1, h2]
    rfl

/-! Facts about one update pass, assembled from the phase lemmas. They all
speak about the initial scan state of update_scan0: empty obj_new, the full
key set as obj_gone. -/

theorem update_scan0_gone_iff {objs : List (String × PAMixerMenuItem)} {clock : Nat}
    {snap : Snapshot} (hk : (objs.map Prod.fst).Nodup) (id : String) :
    id ∈ (update_scan0 objs clock snap).obj_gone ↔
      id ∈ objs.map Prod.fst ∧ id ∉ snap.enum_ids :=
  update_scan_gone_iff snap.enum ⟨objs, [], objs.map Prod.fst, clock⟩
    (fun _ ha => ha) hk id

theorem update_scan0_keys_nodup {objs : List (String × PAMixerMenuItem)} {clock : Nat}
    {snap : Snapshot} (hk : (objs.map Prod.fst).Nodup) :
    ((update_scan0 objs clock snap).objs.map Prod.fst).Nodup :=
  update_scan_keys_nodup snap.enum ⟨objs, [], objs.map Prod.fst, clock⟩ hk

theorem update_objs1_keys_nodup {objs : List (String × PAMixerMenuItem)} {clock : Nat}
    {snap : Snapshot} (hk : (objs.map Prod.fst).Nodup) :
    ((update_objs1 objs clock snap).map Prod.fst).Nodup := by
  rw [update_objs1,
    od_keys_filter (fun s => decide (s ∉ (update_scan0 objs clock snap).obj_gone))]
  exact (update_scan0_keys_nodup hk).filter _

theorem update_objs1_lookup {objs : List (String × PAMixerMenuItem)} {clock : Nat}
    {snap : Snapshot} (id : String) :
    od_lookup id (update_objs1 objs clock snap) =
      if id ∈ (update_scan0 objs clock snap).obj_gone then none
      else od_lookup id (update_scan0 objs clock snap).objs := by
  rw [update_objs1,
    od_lookup_filter_key id (fun s => decide (s ∉ (update_scan0 objs clock snap).obj_gone))]
  by_cases hg : id ∈ (update_scan0 objs clock snap).obj_gone <;> simp [hg]

theorem update_keys_nodup_and_perm {conf : Conf} {objs : List (String × PAMixerMenuItem)}
    {clock : Nat} {snap : Snapshot} {objs2 objs3 : List (String × PAMixerMenuItem)}
    (hk : (objs.map Prod.fst).Nodup)
    (han : apply_new conf (update_scan0 objs clock snap).obj_new
      (update_objs1 objs clock snap) = some objs2)
    (hpart : objs3 = objs2.filter (fun pr => pr.2.t == "sink") ++
      objs2.filter (fun pr => !(pr.2.t == "sink"))) :
    (objs2.map Prod.fst).Nodup ∧ List.Perm objs3 objs2 ∧ (objs3.map Prod.fst).Nodup ∧
      (∀ id, od_lookup id objs3 = od_lookup id objs2) := by
  have hnd2 : (objs2.map Prod.fst).Nodup := by
    rw [apply_new_keys _ han]
    exact update_objs1_keys_nodup hk
  have hperm : List.Perm objs3 objs2 := by
    rw [hpart]
    exact List.filter_append_perm _ objs2
  have hnd3 : (objs3.map Prod.fst).Nodup := ((hperm.map Prod.fst).nodup_iff).mpr hnd2
  exact ⟨hnd2, hperm, hnd3, fun id => od_lookup_perm hperm hnd3 id⟩

/-- Key-set correctness of one update pass: the dict keys after the pass are
exactly the ids enumerated by the snapshot. -/
theorem update_keys {conf : Conf} {objs : List (String × PAMixerMenuItem)} {clock : Nat}
    {snap : Snapshot} {objs3 : List (String × PAMixerMenuItem)}
    {items : List PAMixerMenuItem} {clock2 : Nat}
    (hk : (objs.map Prod.fst).Nodup)
    (h : update conf objs clock snap = some (objs3, items, clock2)) :
    ∀ id, (od_lookup id objs3).isSome ↔ id ∈ snap.enum_ids := by
  obtain ⟨objs2, han, hpart, _, _⟩ := update_inv h
  obtain ⟨hnd2, hperm, hnd3, hlook⟩ := update_keys_nodup_and_perm hk han hpart
  intro id
  rw [hlook id]
  rw [od_lookup_isSome_iff, apply_new_keys _ han, ← od_lookup_isSome_iff,
    update_objs1_lookup]
  by_cases hg : id ∈ (update_scan0 objs clock snap).obj_gone
  · rw [if_pos hg]
    obtain ⟨_, hnotid⟩ := (update_scan0_gone_iff hk id).mp hg
    simp [hnotid]
  · rw [if_neg hg]
    rw [show (update_scan0 objs clock snap).objs =
      (update_scan ⟨objs, [], objs.map Prod.fst, clock⟩ snap.enum).objs from rfl]
    rw [update_scan_isSome_iff]
    have hgone := (update_scan0_gone_iff hk id).not.mp hg
    rw [od_lookup_isSome_iff]
    constructor
    · rintro (hin | hin)
      · by_contra hout
        exact hgone ⟨hin, hout⟩
      · exact hin
    · intro hin
      exact Or.inr hin

/-- Retained entries of one update pass: an id present before the pass and in
the snapshot maps to the very same item afterwards. -/
theorem update_kept {conf : Conf} {objs : List (String × PAMixerMenuItem)} {clock : Nat}
    {snap : Snapshot} {objs3 : List (String × PAMixerMenuItem)}
    {items : List PAMixerMenuItem} {clock2 : Nat}
    (hk : (objs.map Prod.fst).Nodup)
    (h : update conf objs clock snap = some (objs3, items, clock2)) :
    ∀ id, id ∈ objs.map Prod.fst → id ∈ snap.enum_ids →
      od_lookup id objs3 = od_lookup id objs := by
  obtain ⟨objs2, han, hpart, _, _⟩ := update_inv h
  obtain ⟨hnd2, hperm, hnd3, hlook⟩ := update_keys_nodup_and_perm hk han hpart
  intro id hin hsnap
  rw [hlook id]
  have hnotnew : id ∉ (update_scan0 objs clock snap).obj_new := by
    intro hc
    rcases update_scan_new_mem snap.enum ⟨objs, [], objs.map Prod.fst, clock⟩ id hc with
      hc2 | hc2
    · exact absurd hc2 (List.not_mem_nil _)
    · rw [od_lookup_eq_none_iff] at hc2
      exact hc2 hin
  rw [apply_new_lookup_notin id hnotnew _ han]
  rw [update_objs1_lookup]
  have hg : id ∉ (update_scan0 objs clock snap).obj_gone := by
    intro hc
    exact ((update_scan0_gone_iff hk id).mp hc).2 hsnap
  rw [if_neg hg]
  exact update_scan_lookup_of_isSome snap.enum ⟨objs, [], objs.map Prod.fst, clock⟩ id
    ((od_lookup_isSome_iff id objs).mpr hin)

/-- Added entries of one update pass: an id new to the snapshot maps to a
freshly constructed item, stamped inside the pass's clock window. -/
theorem update_added {conf : Conf} {objs : List (String × PAMixerMenuItem)} {clock : Nat}
    {snap : Snapshot} {objs3 : List (String × PAMixerMenuItem)}
    {items : List PAMixerMenuItem} {clock2 : Nat}
    (hk : (objs.map Prod.fst).Nodup)
    (h : update conf objs clock snap = some (objs3, items, clock2)) :
    ∀ id, id ∉ objs.map Prod.fst → id ∈ snap.enum_ids →
      ∃ it, od_lookup id objs3 = some it ∧ clock ≤ it.created_ts ∧
        it.created_ts < clock2 ∧ it.uid = id := by
  obtain ⟨objs2, han, hpart, _, hclock⟩ := update_inv h
  obtain ⟨hnd2, hperm, hnd3, hlook⟩ := update_keys_nodup_and_perm hk han hpart
  intro id hout hsnap
  have hnone : od_lookup id objs = none := (od_lookup_eq_none_iff id objs).mpr hout
  obtain ⟨it0, hl0, hc1, hc2, hc3⟩ :=
    update_scan_lookup_new snap.enum ⟨objs, [], objs.map Prod.fst, clock⟩ id hnone hsnap
  have hg : id ∉ (update_scan0 objs clock snap).obj_gone := by
    intro hc
    exact absurd ((update_scan0_gone_iff hk id).mp hc).1 hout
  have hl1 : od_lookup id (update_objs1 objs clock snap) = some it0 := by
    rw [update_objs1_lookup, if_neg hg]
    exact hl0
  have hnew : id ∈ (update_scan0 objs clock snap).obj_new :=
    update_scan_mem_new snap.enum ⟨objs, [], objs.map Prod.fst, clock⟩ id hsnap hnone
  obtain ⟨it2, evs, hasp, hl2⟩ := apply_new_lookup_in id hnew _ han hl1
  obtain ⟨_, hu, _, hts⟩ := apply_stream_params_core hasp
  refine ⟨it2, ?_, ?_, ?_, ?_⟩
  · rw [hlook id]; exact hl2
  · rw [hts]; exact hc1
  · rw [hts, hclock]; exact hc2
  · rw [hu]; exact hc3

theorem filter_filter_self {α : Type} (p : α → Bool) (X : List α) :
    (X.filter p).filter p = X.filter p :=
  List.filter_eq_self.mpr (fun _ ha => (List.mem_filter.mp ha).2)

theorem filter_neg_filter {α : Type} (p : α → Bool) (X : List α) :
    (X.filter (fun a => !(p a))).filter p = [] := by
  refine List.filter_eq_nil_iff.mpr (fun a ha => ?_)
  have h2 := (List.mem_filter.mp ha).2
  cases hc : p a
  · exact Bool.false_ne_true
  · rw [hc] at h2; exact absurd h2 (by simp)

theorem filter_filter_neg {α : Type} (p : α → Bool) (X : List α) :
    (X.filter p).filter (fun a => !(p a)) = [] := by
  refine List.filter_eq_nil_iff.mpr (fun a ha => ?_)
  have h2 := (List.mem_filter.mp ha).2
  rw [h2]
  simp

/-- One update pass keeps every creation stamp below the output clock. -/
theorem update_created_bound {conf : Conf} {objs : List (String × PAMixerMenuItem)}
    {clock : Nat} {snap : Snapshot} {objs3 : List (String × PAMixerMenuItem)}
    {items : List PAMixerMenuItem} {clock2 : Nat}
    (h : update conf objs clock snap = some (objs3, items, clock2))
    (hb : ∀ q ∈ objs, q.2.created_ts < clock) :
    ∀ q ∈ objs3, q.2.created_ts < clock2 := by
  obtain ⟨objs2, han, hpart, _, hclock⟩ := update_inv h
  have hscan := update_scan_created_lt snap.enum ⟨objs, [], objs.map Prod.fst, clock⟩ hb
  have h1 : ∀ q ∈ update_objs1 objs clock snap,
      q.2.created_ts < (update_scan0 objs clock snap).clock :=
    fun q hq => hscan q ((List.filter_sublist _).subset hq)
  have h2 := apply_new_created_bound _ han h1
  intro q hq
  rw [hclock]
  rw [hpart] at hq
  rcases List.mem_append.mp hq with hq | hq
  · exact h2 q (List.mem_filter.mp hq).1
  · exact h2 q (List.mem_filter.mp hq).1

/-- Chain of one update pass, for any kind predicate depending on the item
kind only: some intermediate dict carries a strict per-kind chain and the
output is its sinks-first partition. -/
theorem update_vals_chain {conf : Conf} {objs : List (String × PAMixerMenuItem)}
    {clock : Nat} {snap : Snapshot} {objs3 : List (String × PAMixerMenuItem)}
    {items : List PAMixerMenuItem} {clock2 : Nat}
    (p : PAMixerMenuItem → Bool) (hpf : ∀ a b : PAMixerMenuItem, a.t = b.t → p a = p b)
    (h : update conf objs clock snap = some (objs3, items, clock2))
    (hb : ∀ q ∈ objs, q.2.created_ts < clock)
    (hp : (vals_ts p objs).Pairwise (· < ·)) :
    ∃ objs2, objs3 = objs2.filter (fun pr => pr.2.t == "sink") ++
        objs2.filter (fun pr => !(pr.2.t == "sink")) ∧
      (vals_ts p objs2).Pairwise (· < ·) := by
  obtain ⟨objs2, han, hpart, _, _⟩ := update_inv h
  have hscan := update_scan_vals_pairwise p snap.enum ⟨objs, [], objs.map Prod.fst, clock⟩
    hb hp
  have h1 : (vals_ts p (update_objs1 objs clock snap)).Pairwise (· < ·) :=
    hscan.sublist (vals_ts_sublist p (List.filter_sublist _))
  have h2 : vals_ts p objs2 = vals_ts p (update_objs1 objs clock snap) :=
    apply_new_vals_ts p hpf _ han
  exact ⟨objs2, hpart, h2 ▸ h1⟩

/-- One update pass keeps the sink-kind creation chain strict. -/
theorem update_vals_pairwise_sink {conf : Conf} {objs : List (String × PAMixerMenuItem)}
    {clock : Nat} {snap : Snapshot} {objs3 : List (String × PAMixerMenuItem)}
    {items : List PAMixerMenuItem} {clock2 : Nat}
    (h : update conf objs clock snap = some (objs3, items, clock2))
    (hb : ∀ q ∈ objs, q.2.created_ts < clock)
    (hp : (vals_ts (fun it => it.t == "sink") objs).Pairwise (· < ·)) :
    (vals_ts (fun it => it.t == "sink") objs3).Pairwise (· < ·) := by
  obtain ⟨objs2, hpart, h2⟩ := update_vals_chain (fun it => it.t == "sink")
    (fun a b hab => by simp only [hab]) h hb hp
  rw [hpart, vals_ts_append]
  have hv1 : vals_ts (fun it => it.t == "sink")
      (objs2.filter (fun pr => pr.2.t == "sink")) =
      vals_ts (fun it => it.t == "sink") objs2 := by
    simp only [vals_ts, map_snd_filter_snd (fun it => it.t == "sink")]
    rw [filter_filter_self]
  have hv2 : vals_ts (fun it => it.t == "sink")
      (objs2.filter (fun pr => !(pr.2.t == "sink"))) = [] := by
    simp only [vals_ts, map_snd_filter_snd (fun it => !(it.t == "sink"))]
    rw [filter_neg_filter]
    rfl
  rw [hv1, hv2, List.append_nil]
  exact h2

/-- One update pass keeps the stream-kind creation chain strict. -/
theorem update_vals_pairwise_stream {conf : Conf} {objs : List (String × PAMixerMenuItem)}
    {clock : Nat} {snap : Snapshot} {objs3 : List (String × PAMixerMenuItem)}
    {items : List PAMixerMenuItem} {clock2 : Nat}
    (h : update conf objs clock snap = some (objs3, items, clock2))
    (hb : ∀ q ∈ objs, q.2.created_ts < clock)
    (hp : (vals_ts (fun it => !(it.t == "sink")) objs).Pairwise (· < ·)) :
    (vals_ts (fun it => !(it.t == "sink")) objs3).Pairwise (· < ·) := by
  obtain ⟨objs2, hpart, h2⟩ := update_vals_chain (fun it => !(it.t == "sink"))
    (fun a b hab => by simp only [hab]) h hb hp
  rw [hpart, vals_ts_append]
  have hv1 : vals_ts (fun it => !(it.t == "sink"))
      (objs2.filter (fun pr => pr.2.t == "sink")) = [] := by
    simp only [vals_ts, map_snd_filter_snd (fun it => it.t == "sink")]
    rw [filter_filter_neg]
    rfl
  have hv2 : vals_ts (fun it => !(it.t == "sink"))
      (objs2.filter (fun pr => !(pr.2.t == "sink"))) =
      vals_ts (fun it => !(it.t == "sink")) objs2 := by
    simp only [vals_ts, map_snd_filter_snd (fun it => !(it.t == "sink"))]
    rw [filter_filter_self]
  rw [hv1, hv2, List.nil_append]
  exact h2

/-- After one update pass the dict is partitioned with all sinks first. -/
theorem update_partitioned {conf : Conf} {objs : List (String × PAMixerMenuItem)}
    {clock : Nat} {snap : Snapshot} {objs3 : List (String × PAMixerMenuItem)}
    {items : List PAMixerMenuItem} {clock2 : Nat}
    (h : update conf objs clock snap = some (objs3, items, clock2)) :
    objs3 = objs3.filter (fun pr => pr.2.t == "sink") ++
      objs3.filter (fun pr => !(pr.2.t == "sink")) := by
  obtain ⟨objs2, _, hpart, _, _⟩ := update_inv h
  obtain ⟨hf1, hf2⟩ := filter_of_partition (fun pr => pr.2.t == "sink") hpart
    (fun a ha => (List.mem_filter.mp ha).2)
    (fun b hb => by
      have h2 := (List.mem_filter.mp hb).2
      cases hc : (b.2.t == "sink")
      · exact hc
      · rw [hc] at h2; exact absurd h2 (by simp))
  rw [hf1, hf2]
  exact hpart

/-- Invariant of the menu dict across refreshes: distinct keys, creation
stamps below the clock, strictly increasing per-kind creation chains, and
the sinks-first partition. -/
def MenuInv (objs : List (String × PAMixerMenuItem)) (clock : Nat) : Prop :=
  (objs.map Prod.fst).Nodup ∧
  (∀ q ∈ objs, q.2.created_ts < clock) ∧
  (vals_ts (fun it => it.t == "sink") objs).Pairwise (· < ·) ∧
  (vals_ts (fun it => !(it.t == "sink")) objs).Pairwise (· < ·) ∧
  objs = objs.filter (fun pr => pr.2.t == "sink") ++
    objs.filter (fun pr => !(pr.2.t == "sink"))

theorem MenuInv.initial : MenuInv [] 0 :=
  ⟨List.nodup_nil, by intro q hq; simp at hq, List.Pairwise.nil, List.Pairwise.nil, rfl⟩

theorem update_menu_inv {conf : Conf} {objs : List (String × PAMixerMenuItem)}
    {clock : Nat} {snap : Snapshot} {objs3 : List (String × PAMixerMenuItem)}
    {items : List PAMixerMenuItem} {clock2 : Nat}
    (hi : MenuInv objs clock)
    (h : update conf objs clock snap = some (objs3, items, clock2)) :
    MenuInv objs3 clock2 := by
  obtain ⟨hk, hb, hs, hst, _⟩ := hi
  obtain ⟨objs2, han, hpart, _, _⟩ := update_inv h
  obtain ⟨_, _, hnd3, _⟩ := update_keys_nodup_and_perm hk han hpart
  exact ⟨hnd3, update_created_bound h hb, update_vals_pairwise_sink h hb hs,
    update_vals_pairwise_stream h hb hst, update_partitioned h⟩

theorem run_refreshes_from_inv (conf : Conf) :
    ∀ (snaps : List Snapshot) (objs : List (String × PAMixerMenuItem)) (clock : Nat)
      {objs3 : List (String × PAMixerMenuItem)} {items : List PAMixerMenuItem}
      {clock2 : Nat}, MenuInv objs clock →
      run_refreshes_from conf objs clock snaps = some (objs3, items, clock2) →
      MenuInv objs3 clock2 ∧
        items = (objs3.map Prod.snd).filter (fun it => !it.hidden) := by
  intro snaps
  induction snaps with
  | nil =>
      intro objs clock objs3 items clock2 hi h
      simp only [run_refreshes_from, Option.some.injEq, Prod.mk.injEq] at h
      obtain ⟨h1, h2, h3⟩ := h
      subst h1
      subst h3
      exact ⟨hi, h2.symm⟩
  | cons s rest ih =>
      intro objs clock objs3 items clock2 hi h
      simp only [run_refreshes_from] at h
      cases hu : update conf objs clock s with
      | none => rw [hu] at h; exact absurd h (by simp)
      | some trip =>
          obtain ⟨o2, i2, c2⟩ := trip
          rw [hu] at h
          exact ih o2 c2 (update_menu_inv hi hu) h

theorem values_partition {objs3 : List (String × PAMixerMenuItem)}
    (hpart : objs3 = objs3.filter (fun pr => pr.2.t == "sink") ++
      objs3.filter (fun pr => !(pr.2.t == "sink"))) :
    objs3.map Prod.snd =
      (objs3.map Prod.snd).filter (fun it => it.t == "sink") ++
        (objs3.map Prod.snd).filter (fun it => !(it.t == "sink")) := by
  conv_lhs => rw [hpart]
  rw [List.map_append, map_snd_filter_snd (fun it => it.t == "sink"),
    map_snd_filter_snd (fun it => !(it.t == "sink"))]

theorem filter_preserves_partition {α : Type} (q p : α → Bool) {V : List α}
    (h : V = V.filter p ++ V.filter (fun a => !(p a))) :
    V.filter q = (V.filter q).filter p ++ (V.filter q).filter (fun a => !(p a)) := by
  have hq : V.filter q = (V.filter p).filter q ++ (V.filter (fun a => !(p a))).filter q := by
    conv_lhs => rw [h]
    rw [List.filter_append]
  obtain ⟨f1, f2⟩ := filter_of_partition p hq
    (fun a ha => (List.mem_filter.mp (List.mem_filter.mp ha).1).2)
    (fun b hb => by
      have h2 := (List.mem_filter.mp (List.mem_filter.mp hb).1).2
      cases hc : p b
      · rfl
      · rw [hc] at h2; exact absurd h2 (by simp))
  rw [f1, f2]
  exact hq

/-! Lemmas about the navigation primitives. -/

theorem item_after_loop_none {uid : String} :
    ∀ {items : List PAMixerMenuItem}, uid ∉ items.map (fun it => it.uid) →
      item_after_loop uid items false = none := by
  intro items
  induction items with
  | nil => intro _; rfl
  | cons it2 rest ih =>
      intro h
      simp only [List.map_cons, List.mem_cons] at h
      push_neg at h
      obtain ⟨h1, h2⟩ := h
      have hbe : (it2.uid == uid) = false := beq_eq_false_iff_ne.mpr (fun hh => h1 hh.symm)
      rw [item_after_loop, if_neg (by simp), hbe]
      exact ih h2

theorem item_after_loop_append {uid : String} (l : List PAMixerMenuItem) :
    ∀ {xs : List PAMixerMenuItem}, uid ∉ xs.map (fun it => it.uid) →
      item_after_loop uid (xs ++ l) false = item_after_loop uid l false := by
  intro xs
  induction xs with
  | nil => intro _; rfl
  | cons it2 rest ih =>
      intro h
      simp only [List.map_cons, List.mem_cons] at h
      push_neg at h
      obtain ⟨h1, h2⟩ := h
      have hbe : (it2.uid == uid) = false := beq_eq_false_iff_ne.mpr (fun hh => h1 hh.symm)
      rw [List.cons_append, item_after_loop, if_neg (by simp), hbe]
      exact ih h2

theorem item_before_loop_none {uid : String} :
    ∀ {items : List PAMixerMenuItem}, uid ∉ items.map (fun it => it.uid) →
      ∀ prev, item_before_loop uid items prev = none := by
  intro items
  induction items with
  | nil => intro _ prev; rfl
  | cons it2 rest ih =>
      intro h prev
      simp only [List.map_cons, List.mem_cons] at h
      push_neg at h
      obtain ⟨h1, h2⟩ := h
      have hbe : (it2.uid == uid) = false := beq_eq_false_iff_ne.mpr (fun hh => h1 hh.symm)
      simp only [item_before_loop, hbe, Bool.false_eq_true, if_false]
      exact ih h2 _

theorem item_after_getLast {conf : Conf} {items : List PAMixerMenuItem}
    (hnd : (items.map (fun it => it.uid)).Nodup) :
    item_after conf items items.getLast? = item_default conf items := by
  cases hL : items.getLast? with
  | none => rfl
  | some last =>
      obtain ⟨xs, hxs⟩ := List.getLast?_eq_some_iff.mp hL
      subst hxs
      have hnotin : last.uid ∉ xs.map (fun it => it.uid) := by
        rw [List.map_append] at hnd
        rcases List.nodup_append.mp hnd with ⟨_, _, hdisj⟩
        intro hc
        exact hdisj hc (by simp)
      simp only [item_after]
      rw [item_after_loop_append _ hnotin]
      simp [item_after_loop]

theorem item_before_head {conf : Conf} {items : List PAMixerMenuItem} :
    item_before conf items items.head? = item_default conf items := by
  cases items with
  | nil => rfl
  | cons first rest =>
      simp only [List.head?]
      simp [item_before, item_before_loop]

theorem item_default_isSome {conf : Conf} {items : List PAMixerMenuItem}
    (hne : items ≠ [])
    (hfd : conf.focus_default = "first" ∨ conf.focus_default = "last") :
    (item_default conf items).isSome := by
  rw [item_default, if_neg (by simp [hne])]
  rcases hfd with hfd | hfd
  · rw [if_pos hfd]
    cases items with
    | nil => exact absurd rfl hne
    | cons a rest => simp
  · rw [hfd]
    rw [if_neg (by decide : ¬("last" = "first")), if_pos rfl]
    exact List.getLast?_isSome.mpr hne

/-! Lemmas about the update_wakeup polling loop. -/

theorem wakeup_poll_bound (acquire : Nat → Bool) :
    ∀ (fuel n k : Nat), wakeup_poll acquire n fuel = some k → n ≤ k ∧ k < n + fuel := by
  intro fuel
  induction fuel with
  | zero => intro n k h; exact absurd h (by simp [wakeup_poll])
  | succ fuel ih =>
      intro n k h
      rw [wakeup_poll] at h
      by_cases ha : acquire n
      · rw [if_pos ha, Option.some.injEq] at h
        subst h
        exact ⟨le_refl _, Nat.lt_add_of_pos_right (Nat.succ_pos _)⟩
      · rw [if_neg ha] at h
        obtain ⟨h1, h2⟩ := ih (n + 1) k h
        exact ⟨le_trans (Nat.le_succ _) h1, by omega⟩

theorem wakeup_tries_eval : wakeup_tries (3 / 100) = 166 := by
  norm_num [wakeup_tries, Rat.floor]
  decide

/-! Concrete server objects, items and snapshots used by the witnesses and
counterexamples below. -/

def exO0 : PulseObj := { index := 0 }

def exO1 : PulseObj := { index := 1 }

def exS5 : PulseObj := { index := 5 }

/-- Server object with the same index as exO0 but a different state: a
fresh enumeration handle for the reused index. -/
def exO0v : PulseObj := { index := 0, value_flat := 1 }

def exItemSink0 : PAMixerMenuItem :=
  { t := "sink", uid := "sink-0", obj := exO0, hidden := false, created_ts := 0 }

def exItemStream5 : PAMixerMenuItem :=
  { t := "stream", uid := "stream-5", obj := exS5, hidden := false, created_ts := 1 }

def exItemSink1 : PAMixerMenuItem :=
  { t := "sink", uid := "sink-1", obj := exO1, hidden := false, created_ts := 2 }

def exObjs1 : List (String × PAMixerMenuItem) :=
  [("sink-0", exItemSink0), ("stream-5", exItemStream5)]

def exObjs2 : List (String × PAMixerMenuItem) :=
  [("sink-0", exItemSink0), ("sink-1", exItemSink1)]

def exSnap1 : Snapshot := { sinks := [exO0], streams := [exS5] }

def exSnap2 : Snapshot := { sinks := [exO0, exO1], streams := [] }

/-- Snapshot with the same ids as exSnap1 but a different server object
behind the sink-0 index. -/
def exSnap3 : Snapshot := { sinks := [exO0v], streams := [exS5] }

def exEmptyItem : PAMixerMenuItem := item_init "stream" "stream-1" { index := 1 } 0

/-! The claims. -/

/-- C1: volume round-trip law. For every display value v in the unit
interval, writing it through the volume setter (the affine map into the
server's native range, lines 212-216) and reading it back through the
volume getter (lines 207-211) returns v exactly, provided the configured
max_volume is positive. Over the rationals the round trip is exact, hence
within any floating tolerance. -/
theorem C1_volume_round_trip (conf : Conf) (v : ℚ) (h0 : 0 ≤ v) (h1 : v ≤ 1)
    (hm : 0 < conf.max_volume) :
    volume_get conf (volume_set_native conf v) = v := by
  rw [volume_set_native, volume_get]
  rw [max_eq_right h0, min_eq_right h1]
  rw [add_sub_cancel_right]
  rw [max_eq_right (mul_nonneg h0 hm.le)]
  rw [mul_div_cancel_right₀ _ hm.ne.symm]
  exact min_eq_right h1

/-- Witness for C1 at the default configuration and v equal to one. -/
theorem C1_volume_round_trip_witness :
    (0 : ℚ) ≤ 1 ∧ (1 : ℚ) ≤ 1 ∧ 0 < conf0.max_volume ∧
      volume_get conf0 (volume_set_native conf0 1) = 1 :=
  ⟨by decide, by decide, by decide,
    C1_volume_round_trip conf0 1 (by decide) (by decide) (by decide)⟩

/-- C8 counterexample: at the default configuration the getter applied to a
native value equal to max_volume returns ninety-nine hundredths, not one,
so the getter does not return one for every native value at or above
max_volume as the claim states. -/
theorem C8_counterexample :
    volume_get conf0 conf0.max_volume = 99 / 100 ∧
      volume_get conf0 conf0.max_volume ≠ 1 := by
  have h : volume_get conf0 conf0.max_volume = 99 / 100 := by
    rw [volume_get]
    rw [show conf0.max_volume = 1 from rfl, show conf0.min_volume = 1 / 100 from rfl]
    rw [max_eq_right (by norm_num), min_eq_right (by norm_num)]
    norm_num
  exact ⟨h, by rw [h]; norm_num⟩

/-- C8 amended: the getter always returns a value in the unit interval; it
returns zero for every native value at or below min_volume, returns one for
every native value at or above min_volume plus max_volume (the actual
ceiling, rather than max_volume itself), and maps affinely as the offset
from min_volume divided by max_volume in between. -/
theorem C8_volume_display_mapping (conf : Conf) (vf : ℚ) (hm : 0 < conf.max_volume) :
    (0 ≤ volume_get conf vf ∧ volume_get conf vf ≤ 1) ∧
    (vf ≤ conf.min_volume → volume_get conf vf = 0) ∧
    (conf.min_volume + conf.max_volume ≤ vf → volume_get conf vf = 1) ∧
    (conf.min_volume ≤ vf → vf ≤ conf.min_volume + conf.max_volume →
      volume_get conf vf = (vf - conf.min_volume) / conf.max_volume) := by
  refine ⟨⟨?_, ?_⟩, ?_, ?_, ?_⟩
  · rw [volume_get]
    exact le_min (by norm_num) (div_nonneg (le_max_left 0 _) hm.le)
  · exact min_le_left _ _
  · intro h
    rw [volume_get]
    rw [max_eq_left (by linarith), zero_div]
    exact min_eq_right (by norm_num)
  · intro h
    rw [volume_get]
    rw [max_eq_right (by linarith)]
    exact min_eq_left ((one_le_div hm).mpr (by linarith))
  · intro h1 h2
    rw [volume_get]
    rw [max_eq_right (by linarith)]
    refine min_eq_right ?_
    rw [div_le_one hm]
    linarith

/-- Witness for the amended C8 at the default configuration and a native
value of three. -/
theorem C8_volume_display_mapping_witness :
    0 < conf0.max_volume ∧
      ((0 ≤ volume_get conf0 3 ∧ volume_get conf0 3 ≤ 1) ∧
        ((3 : ℚ) ≤ conf0.min_volume → volume_get conf0 3 = 0) ∧
        (conf0.min_volume + conf0.max_volume ≤ 3 → volume_get conf0 3 = 1) ∧
        (conf0.min_volume ≤ 3 → (3 : ℚ) ≤ conf0.min_volume + conf0.max_volume →
          volume_get conf0 3 = (3 - conf0.min_volume) / conf0.max_volume)) :=
  ⟨by decide, C8_volume_display_mapping conf0 3 (by decide)⟩

/-- C9: coordinator fail-fast bound. Every entry into the update_wakeup
scope (lines 305-317) makes at most int(5.0 divided by 0.03) equal to 166
lock attempts, each preceded by an event_listen_stop call and bounded by
the 0.03 second timeout, so the waiting inside the loop is bounded by 166
times 0.03, under five seconds; when no attempt succeeds the RuntimeError
of line 315, the spec's CoordinatorStuck, is raised, so the scope never
blocks forever in the loop; the pulse lock is released whenever it was
acquired and the hold mutex is released on every exit path, whether the
body returns or raises. -/
theorem C9_coordinator_fail_fast (acquire : Nat → Bool) (body_fails : Bool) :
    wakeup_tries (3 / 100) = 166 ∧
    ((update_wakeup_run acquire body_fails (3 / 100)).acquired = true ∨
      (update_wakeup_run acquire body_fails (3 / 100)).stuck = true) ∧
    ¬((update_wakeup_run acquire body_fails (3 / 100)).acquired = true ∧
      (update_wakeup_run acquire body_fails (3 / 100)).stuck = true) ∧
    (update_wakeup_run acquire body_fails (3 / 100)).attempts ≤ 166 ∧
    ((update_wakeup_run acquire body_fails (3 / 100)).attempts : ℚ) * (3 / 100) ≤ 5 ∧
    (update_wakeup_run acquire body_fails (3 / 100)).listen_stops =
      (update_wakeup_run acquire body_fails (3 / 100)).attempts ∧
    (update_wakeup_run acquire body_fails (3 / 100)).hold_released = true ∧
    ((update_wakeup_run acquire body_fails (3 / 100)).acquired = true →
      (update_wakeup_run acquire body_fails (3 / 100)).body_ran = true ∧
      (update_wakeup_run acquire body_fails (3 / 100)).lock_released = true) ∧
    ((update_wakeup_run acquire body_fails (3 / 100)).acquired = false →
      (update_wakeup_run acquire body_fails (3 / 100)).stuck = true) := by
  set r := update_wakeup_run acquire body_fails (3 / 100) with hrdef
  have hq : ∀ a : Nat, a ≤ 166 → (a : ℚ) * (3 / 100) ≤ 5 := by
    intro a ha
    have h1 : (a : ℚ) ≤ 166 := by exact_mod_cast ha
    have h2 : (a : ℚ) * (3 / 100) ≤ 166 * (3 / 100) :=
      mul_le_mul_of_nonneg_right h1 (by norm_num)
    linarith [h2]
  cases hpoll : wakeup_poll acquire 0 (wakeup_tries (3 / 100)) with
  | some n =>
      have hb := wakeup_poll_bound acquire (wakeup_tries (3 / 100)) 0 n hpoll
      rw [wakeup_tries_eval] at hb
      have hn : n + 1 ≤ 166 := by omega
      have hr : r = ⟨n + 1, n + 1, true, false, true, true, true, body_fails⟩ := by
        rw [hrdef, update_wakeup_run, hpoll]
      rw [hr]
      refine ⟨wakeup_tries_eval, Or.inl rfl, ?_, hn, hq _ hn, rfl, rfl,
        fun _ => ⟨rfl, rfl⟩, ?_⟩
      · intro hc
        exact absurd hc.2 (by simp)
      · intro hc
        exact absurd hc (by simp)
  | none =>
      have hr : r = ⟨wakeup_tries (3 / 100), wakeup_tries (3 / 100), false, true,
          false, false, true, true⟩ := by
        rw [hrdef, update_wakeup_run, hpoll]
      rw [hr]
      refine ⟨wakeup_tries_eval, Or.inr rfl, ?_, ?_, ?_, rfl, rfl, ?_, fun _ => rfl⟩
      · intro hc
        exact absurd hc.1 (by simp)
      · rw [wakeup_tries_eval]
      · rw [wakeup_tries_eval]
        exact hq _ (le_refl _)
      · intro hc
        exact absurd hc (by simp)

/-- Witness for C9 with an oracle that accepts the first lock attempt and a
body that returns normally. -/
theorem C9_coordinator_fail_fast_witness :
    wakeup_tries (3 / 100) = 166 ∧
    (update_wakeup_run (fun _ => true) false (3 / 100)).attempts ≤ 166 ∧
    (update_wakeup_run (fun _ => true) false (3 / 100)).hold_released = true :=
  ⟨(C9_coordinator_fail_fast (fun _ => true) false).1,
    (C9_coordinator_fail_fast (fun _ => true) false).2.2.2.1,
    (C9_coordinator_fail_fast (fun _ => true) false).2.2.2.2.2.2.1⟩

/-- C2: diff correctness of one refresh pass. Given any previous dict state
with distinct keys and any server snapshot with distinct enumerated ids,
after one update pass the key set of the id-to-item map is exactly the ids
enumerated from the snapshot; every id present both before and in the
snapshot maps to the very same item value, not a reconstructed one, hence
with its hidden flag and creation timestamp untouched; every id absent
from the snapshot is removed; and every id new in the snapshot maps to a
freshly constructed item, stamped inside the clock window of this pass. -/
theorem C2_diff_correctness (conf : Conf) (objs : List (String × PAMixerMenuItem))
    (clock : Nat) (snap : Snapshot) (objs3 : List (String × PAMixerMenuItem))
    (items : List PAMixerMenuItem) (clock2 : Nat)
    (hk : (objs.map Prod.fst).Nodup) (he : snap.enum_ids.Nodup)
    (hup : update conf objs clock snap = some (objs3, items, clock2)) :
    (∀ id, (od_lookup id objs3).isSome ↔ id ∈ snap.enum_ids) ∧
    (∀ id, id ∈ objs.map Prod.fst → id ∈ snap.enum_ids →
      od_lookup id objs3 = od_lookup id objs) ∧
    (∀ id, id ∉ snap.enum_ids → od_lookup id objs3 = none) ∧
    (∀ id, id ∉ objs.map Prod.fst → id ∈ snap.enum_ids →
      ∃ it, od_lookup id objs3 = some it ∧ clock ≤ it.created_ts ∧
        it.created_ts < clock2 ∧ it.uid = id) := by
  refine ⟨update_keys hk hup, update_kept hk hup, ?_, update_added hk hup⟩
  intro id hid
  rw [← Option.not_isSome_iff_eq_none]
  intro hc
  exact hid ((update_keys hk hup id).mp hc)

/-- Witness for C2: from the state after the first example snapshot, a
second snapshot that keeps sink-0, adds sink-1 and drops stream-5. -/
theorem C2_diff_correctness_witness :
    (exObjs1.map Prod.fst).Nodup ∧ exSnap2.enum_ids.Nodup ∧
    update conf0 exObjs1 2 exSnap2 = some (exObjs2, exObjs2.map Prod.snd, 3) ∧
    od_lookup "sink-0" exObjs2 = od_lookup "sink-0" exObjs1 ∧
    od_lookup "stream-5" exObjs2 = none :=
  ⟨by decide, by decide, by decide,
    (C2_diff_correctness conf0 exObjs1 2 exSnap2 exObjs2 (exObjs2.map Prod.snd) 3
        (by decide) (by decide) (by decide)).2.1 "sink-0" (by decide) (by decide),
    (C2_diff_correctness conf0 exObjs1 2 exSnap2 exObjs2 (exObjs2.map Prod.snd) 3
        (by decide) (by decide) (by decide)).2.2.1 "stream-5" (by decide)⟩

/-- C5 counterexample: the claim says a retained item's handle is the server
object returned by the current enumeration. Reconciling the example state,
whose sink-0 item holds the old handle exO0, against a snapshot whose
enumeration returns the distinct object exO0v for the same index, keeps the
old handle: the retained item's obj is still exO0, not the freshly
enumerated exO0v. -/
theorem C5_counterexample :
    update conf0 exObjs1 2 exSnap3 = some (exObjs1, exObjs1.map Prod.snd, 2) ∧
    obj_id "sink" exO0v = "sink-0" ∧ exO0v ∈ exSnap3.sinks ∧
    (od_lookup "sink-0" exObjs1).map (fun it => it.obj) = some exO0 ∧
    exO0 ≠ exO0v := by
  refine ⟨by decide, by decide, by decide, by decide, by decide⟩

/-- C5 amended: on every refresh, for each id present in both the previous
state and the current enumeration, the retained item keeps the very handle
it was constructed with, its obj field unchanged by the pass; the current
enumeration's server object is used only for newly added ids, so handles
are carried across reconciliation cycles rather than re-validated. -/
theorem C5_handle_cached (conf : Conf) (objs : List (String × PAMixerMenuItem))
    (clock : Nat) (snap : Snapshot) (objs3 : List (String × PAMixerMenuItem))
    (items : List PAMixerMenuItem) (clock2 : Nat)
    (hk : (objs.map Prod.fst).Nodup) (he : snap.enum_ids.Nodup)
    (hup : update conf objs clock snap = some (objs3, items, clock2)) :
    ∀ id, id ∈ objs.map Prod.fst → id ∈ snap.enum_ids →
      (od_lookup id objs3).map (fun it => it.obj) =
        (od_lookup id objs).map (fun it => it.obj) := by
  intro id h1 h2
  rw [update_kept hk hup id h1 h2]

/-- Witness for the amended C5: sink-0 is present in both the example state
and the third snapshot, and its mapped handle is unchanged. -/
theorem C5_handle_cached_witness :
    (exObjs1.map Prod.fst).Nodup ∧ exSnap3.enum_ids.Nodup ∧
    update conf0 exObjs1 2 exSnap3 = some (exObjs1, exObjs1.map Prod.snd, 2) ∧
    (od_lookup "sink-0" exObjs1).map (fun it => it.obj) =
      (od_lookup "sink-0" exObjs1).map (fun it => it.obj) :=
  ⟨by decide, by decide, by decide,
    C5_handle_cached conf0 exObjs1 2 exSnap3 exObjs1 (exObjs1.map Prod.snd) 2
      (by decide) (by decide) (by decide) "sink-0" (by decide) (by decide)⟩

/-- C3: ordering invariant. Starting from the initial empty menu and
applying any sequence of snapshots, each with distinct enumerated ids, the
visible item list after the run has all sink-kind items before all
stream-kind items, and within each kind the creation stamps are strictly
increasing, so the items appear in their original discovery order no matter
which additions and removals the refreshes interleaved. -/
theorem C3_ordering_invariant (conf : Conf) (snaps : List Snapshot)
    (objs : List (String × PAMixerMenuItem)) (items : List PAMixerMenuItem) (clock : Nat)
    (hids : ∀ s ∈ snaps, s.enum_ids.Nodup)
    (hrun : run_refreshes conf snaps = some (objs, items, clock)) :
    items = items.filter (fun it => it.t == "sink") ++
      items.filter (fun it => !(it.t == "sink")) ∧
    ((items.filter (fun it => it.t == "sink")).map
      (fun it => it.created_ts)).Pairwise (· < ·) ∧
    ((items.filter (fun it => !(it.t == "sink"))).map
      (fun it => it.created_ts)).Pairwise (· < ·) := by
  obtain ⟨hi, hitems⟩ := run_refreshes_from_inv conf snaps [] 0 MenuInv.initial hrun
  obtain ⟨hnd, hb, hsp, hstp, hpart⟩ := hi
  have hV := values_partition hpart
  refine ⟨?_, ?_, ?_⟩
  · rw [hitems]
    exact filter_preserves_partition (fun it => !it.hidden) (fun it => it.t == "sink") hV
  · refine hsp.sublist ?_
    rw [hitems]
    exact ((((List.filter_sublist _).filter _)).map _)
  · refine hstp.sublist ?_
    rw [hitems]
    exact ((((List.filter_sublist _).filter _)).map _)

/-- Witness for C3: two snapshots that add a sink and a stream, then drop
the stream and add a second sink. -/
theorem C3_ordering_invariant_witness :
    exSnap1.enum_ids.Nodup ∧ exSnap2.enum_ids.Nodup ∧
    run_refreshes conf0 [exSnap1, exSnap2] =
      some (exObjs2, exObjs2.map Prod.snd, 3) ∧
    ((exObjs2.map Prod.snd) = (exObjs2.map Prod.snd).filter (fun it => it.t == "sink") ++
        (exObjs2.map Prod.snd).filter (fun it => !(it.t == "sink")) ∧
      (((exObjs2.map Prod.snd).filter (fun it => it.t == "sink")).map
        (fun it => it.created_ts)).Pairwise (· < ·) ∧
      (((exObjs2.map Prod.snd).filter (fun it => !(it.t == "sink"))).map
        (fun it => it.created_ts)).Pairwise (· < ·)) :=
  ⟨by decide, by decide, by decide,
    C3_ordering_invariant conf0 [exSnap1, exSnap2] exObjs2 (exObjs2.map Prod.snd) 3
      (by decide) (by decide)⟩

/-- C4: navigation boundedness. For a visible list with distinct uids and a
recognized focus policy, item_after applied to the last visible item and
item_before applied to the first visible item both return item_default,
with no wraparound and no error (on a non-empty list the default is
defined); on an empty visible list both navigation calls and item_default
itself return none. -/
theorem C4_navigation_boundedness (conf : Conf) (items : List PAMixerMenuItem)
    (hnd : (items.map (fun it => it.uid)).Nodup)
    (hfd : conf.focus_default = "first" ∨ conf.focus_default = "last") :
    item_after conf items items.getLast? = item_default conf items ∧
    item_before conf items items.head? = item_default conf items ∧
    (items = [] → item_default conf items = none ∧
      ∀ o : Option PAMixerMenuItem,
        item_after conf items o = none ∧ item_before conf items o = none) ∧
    (items ≠ [] → (item_default conf items).isSome) := by
  refine ⟨item_after_getLast hnd, item_before_head, ?_,
    fun hne => item_default_isSome hne hfd⟩
  intro he
  subst he
  refine ⟨rfl, ?_⟩
  intro o
  cases o with
  | none => exact ⟨rfl, rfl⟩
  | some it => exact ⟨rfl, rfl⟩

/-- Witness for C4 on a two-item visible list with the default policy. -/
theorem C4_navigation_boundedness_witness :
    (([exItemSink0, exItemStream5].map (fun it => it.uid)).Nodup) ∧
    (conf0.focus_default = "first" ∨ conf0.focus_default = "last") ∧
    item_after conf0 [exItemSink0, exItemStream5]
        ([exItemSink0, exItemStream5].getLast?) =
      item_default conf0 [exItemSink0, exItemStream5] ∧
    item_before conf0 [exItemSink0, exItemStream5]
        ([exItemSink0, exItemStream5].head?) =
      item_default conf0 [exItemSink0, exItemStream5] :=
  ⟨by decide, by decide,
    (C4_navigation_boundedness conf0 [exItemSink0, exItemStream5]
      (by decide) (by decide)).1,
    (C4_navigation_boundedness conf0 [exItemSink0, exItemStream5]
      (by decide) (by decide)).2.1⟩

/-- C10: implicit navigation totality. When item_after or item_before is
called with no item, or with an item whose uid does not occur in the
current visible list, the call returns item_default: it neither raises nor
returns a neighbor computed from the stale position. -/
theorem C10_navigation_totality (conf : Conf) (items : List PAMixerMenuItem)
    (o : Option PAMixerMenuItem)
    (hid : match o with
      | none => True
      | some it => it.uid ∉ items.map (fun i => i.uid)) :
    item_after conf items o = item_default conf items ∧
    item_before conf items o = item_default conf items := by
  cases o with
  | none => exact ⟨rfl, rfl⟩
  | some it =>
      simp only at hid
      constructor
      · simp only [item_after]
        rw [item_after_loop_none hid]
      · simp only [item_before]
        rw [item_before_loop_none hid none]

/-- Witness for C10: navigating from an item absent from the visible list. -/
theorem C10_navigation_totality_witness :
    (match (some exItemStream5 : Option PAMixerMenuItem) with
      | none => True
      | some it => it.uid ∉ [exItemSink0].map (fun i => i.uid)) ∧
    (item_after conf0 [exItemSink0] (some exItemStream5) =
        item_default conf0 [exItemSink0] ∧
      item_before conf0 [exItemSink0] (some exItemStream5) =
        item_default conf0 [exItemSink0]) :=
  ⟨by decide,
    C10_navigation_totality conf0 [exItemSink0] (some exItemStream5) (by decide)⟩

/-- C6: port-setting error handling. For a stream-kind item, the port setter
raises the PAMixerInvalidAction condition; the matcher's port effect
catches it, logs the error and drops the command, leaving the item intact,
and the whole matching pass over a group carrying a port effect completes
normally with the match and error log events; for a sink-kind item no
condition is raised and the effect is the source's XXX no-op. -/
theorem C6_port_invalid_action (conf : Conf) (item : PAMixerMenuItem) (sec v : String) :
    (item.t = "stream" →
      port_set item v = Except.error ⟨port_invalid_msg item.t⟩ ∧
      apply_set_param conf item sec "port" v =
        some (item, [MixEv.log_port_error sec (port_invalid_msg item.t)]) ∧
      apply_stream_params
          { conf with stream_params := [(sec, [StreamParam.set "port" v])] } item =
        some (item, [MixEv.matched sec,
          MixEv.log_port_error sec (port_invalid_msg item.t)])) ∧
    (item.t = "sink" →
      port_set item v = Except.ok () ∧
      apply_set_param conf item sec "port" v = some (item, [])) := by
  constructor
  · intro ht
    have hps : port_set item v = Except.error ⟨port_invalid_msg item.t⟩ := by
      rw [port_set, if_pos (by rw [ht]; decide)]
    have hasp : ∀ c : Conf, apply_set_param c item sec "port" v =
        some (item, [MixEv.log_port_error sec (port_invalid_msg item.t)]) := by
      intro c
      rw [apply_set_param, if_neg (by decide), if_neg (by decide), if_neg (by decide),
        if_neg (by decide), if_pos rfl, hps]
    refine ⟨hps, hasp conf, ?_⟩
    simp only [apply_stream_params, apply_groups, apply_group, group_scan, od_set,
      od_lookup, apply_group_sets, hasp, List.append_nil, Option.isSome_none,
      Bool.false_eq_true, if_false, if_true]
  · intro ht
    have hps : port_set item v = Except.ok () := by
      rw [port_set, if_neg (by rw [ht]; decide)]
    refine ⟨hps, ?_⟩
    rw [apply_set_param, if_neg (by decide), if_neg (by decide), if_neg (by decide),
      if_neg (by decide), if_pos rfl, hps]

/-- Witness for C6 on the example stream and sink items. -/
theorem C6_port_invalid_action_witness :
    exItemStream5.t = "stream" ∧ exItemSink0.t = "sink" ∧
    (port_set exItemStream5 "hdmi" =
        Except.error ⟨port_invalid_msg exItemStream5.t⟩ ∧
      apply_set_param conf0 exItemStream5 "stream-music" "port" "hdmi" =
        some (exItemStream5,
          [MixEv.log_port_error "stream-music" (port_invalid_msg exItemStream5.t)]) ∧
      apply_stream_params
          { conf0 with
            stream_params := [("stream-music", [StreamParam.set "port" "hdmi"])] }
          exItemStream5 =
        some (exItemStream5, [MixEv.matched "stream-music",
          MixEv.log_port_error "stream-music" (port_invalid_msg exItemStream5.t)])) ∧
    (port_set exItemSink0 "hdmi" = Except.ok () ∧
      apply_set_param conf0 exItemSink0 "sink-sec" "port" "hdmi" =
        some (exItemSink0, [])) :=
  ⟨by decide, by decide,
    (C6_port_invalid_action conf0 exItemStream5 "stream-music" "hdmi").1 (by decide),
    (C6_port_invalid_action conf0 exItemSink0 "sink-sec" "hdmi").2 (by decide)⟩

/-- C7 counterexample: the claim says a clause over a property absent from
the item's metadata is never satisfied. The equals clause with key
equals-bracket-foo and empty value compiles to the anchored escaped empty
pattern; on an item with no properties the property foo is absent, yet the
clause is satisfied, because the code searches the pattern in the empty
default string. -/
theorem C7_counterexample :
    parse_param_key "equals[foo]" = some ("equals", "foo") ∧
    od_lookup "foo" exEmptyItem.obj.proplist = none ∧
    clause_satisfied exEmptyItem "foo" (anchoredEscapedSearch "") = true := by
  refine ⟨by decide, by decide, by decide⟩

/-- C7 amended: a match clause is satisfied iff its pattern's search
succeeds on the property's string value, where an absent property reads as
the empty string: equivalently, either the property exists with a matching
value, or the property is absent and the pattern matches the empty string.
Exact-equality clauses are regex-escaped and anchored at both ends before
matching, so they are satisfied exactly when that string equals the literal
value, or equals it followed by one final newline, per the dollar-anchor
semantics of the re module. -/
theorem C7_match_clause_semantics (item : PAMixerMenuItem) (k : String)
    (pat : String → Bool) (v : String) :
    (clause_satisfied item k pat = true ↔
      ((∃ val, od_lookup k item.obj.proplist = some val ∧ pat val = true) ∨
        (od_lookup k item.obj.proplist = none ∧ pat "" = true))) ∧
    (clause_satisfied item k (anchoredEscapedSearch v) = true ↔
      ((od_lookup k item.obj.proplist).getD "" = v ∨
        (od_lookup k item.obj.proplist).getD "" = v ++ "\n")) := by
  constructor
  · rw [clause_satisfied]
    cases hl : od_lookup k item.obj.proplist with
    | none => simp
    | some val => simp
  · rw [clause_satisfied, anchoredEscapedSearch]
    simp

end PaMixer
